import Mathlib

/-!
Verification development for the `crate` music-library service.

The JavaScript sources are shallowly embedded: JS strings are lists of
Unicode scalar characters (`JStr`), regex-based transformations are spelled
out as structurally recursive list functions, SQLite tables are lists of
row structures, and the asynchronous scanner / metadata client are modelled
as pure state-passing functions with explicit cancellation / outcome
schedules.  Unicode-dependent primitives (NFKD, `toLowerCase`, the `\p{M}`
and `\p{P}\p{S}` character classes) are implemented exactly on the fragment
of Unicode the program's data actually exercises (ASCII, the typographic
quotation marks and dashes named in the source, NBSP); characters outside
that fragment are treated as inert, which is faithful for every concrete
input appearing below.
-/

set_option maxRecDepth 100000

namespace Crate

/-- JS strings, modelled as lists of Unicode scalar characters. -/
abbrev JStr := List Char

/-- Membership of the JS `\s` class (also the set trimmed by `String.trim`):
space, tab, LF, VT, FF, CR, NBSP, the Unicode space separators, line and
paragraph separators, and the BOM. -/
def jsIsSpace (c : Char) : Bool :=
  c.toNat = 0x20 ∨ c.toNat = 0x09 ∨ c.toNat = 0x0A ∨ c.toNat = 0x0D ∨
  c.toNat = 0x0B ∨ c.toNat = 0x0C ∨ c.toNat = 0xA0 ∨ c.toNat = 0x1680 ∨
  (0x2000 ≤ c.toNat ∧ c.toNat ≤ 0x200A) ∨
  c.toNat = 0x2028 ∨ c.toNat = 0x2029 ∨ c.toNat = 0x202F ∨ c.toNat = 0x205F ∨
  c.toNat = 0x3000 ∨ c.toNat = 0xFEFF

/-- JS `String.prototype.trim`: drop leading and trailing `\s` characters. -/
def jsTrim (s : JStr) : JStr :=
  ((s.dropWhile jsIsSpace).reverse.dropWhile jsIsSpace).reverse

/-- JS `toLowerCase`, restricted to the ASCII fragment of the Unicode casing
table (sufficient for every character class this program manipulates). -/
def jsToLower (c : Char) : Char :=
  if 0x41 ≤ c.toNat ∧ c.toNat ≤ 0x5A then Char.ofNat (c.toNat + 32) else c

/-- Membership of the JS `\p{P}\p{S}` class (punctuation and symbols),
exact on ASCII and on the General Punctuation block (quotation marks,
dashes, primes); the line/paragraph separators 0x2028/0x2029 are space
separators and correctly excluded. -/
def isPunctSym (c : Char) : Bool :=
  (0x21 ≤ c.toNat ∧ c.toNat ≤ 0x2F) ∨ (0x3A ≤ c.toNat ∧ c.toNat ≤ 0x40) ∨
  (0x5B ≤ c.toNat ∧ c.toNat ≤ 0x60) ∨ (0x7B ≤ c.toNat ∧ c.toNat ≤ 0x7E) ∨
  (0x2010 ≤ c.toNat ∧ c.toNat ≤ 0x2027) ∨ (0x2030 ≤ c.toNat ∧ c.toNat ≤ 0x205E)

/-- Membership of the JS `\p{M}` class (combining marks), covering the
principal combining blocks; ASCII and the typographic characters used by
the program contain no marks. -/
def isMark (c : Char) : Bool :=
  (0x300 ≤ c.toNat ∧ c.toNat ≤ 0x36F) ∨ (0x483 ≤ c.toNat ∧ c.toNat ≤ 0x489) ∨
  (0x1AB0 ≤ c.toNat ∧ c.toNat ≤ 0x1AFF) ∨ (0x1DC0 ≤ c.toNat ∧ c.toNat ≤ 0x1DFF) ∨
  (0x20D0 ≤ c.toNat ∧ c.toNat ≤ 0x20FF) ∨ (0xFE20 ≤ c.toNat ∧ c.toNat ≤ 0xFE2F)

/-- Per-character NFKD decomposition on the modelled fragment: NBSP
decomposes to a plain space and U+2033 (double prime) to two U+2032
(primes); every other modelled character is NFKD-stable. -/
def nfkdChar (c : Char) : List Char :=
  if c.toNat = 0xA0 then [' ']
  else if c.toNat = 0x2033 then [Char.ofNat 0x2032, Char.ofNat 0x2032]
  else [c]

/-- JS `String.prototype.normalize` with the NFKD form, on the modelled
fragment. -/
def jsNFKD (s : JStr) : JStr := s.flatMap nfkdChar

/-- JS `replace(/\s+/g, ' ')`: collapse every run of whitespace into a
single plain space. -/
def collapseWS : JStr → JStr
  | [] => []
  | c :: rest =>
    let t := collapseWS rest
    if jsIsSpace c then
      match t with
      | ' ' :: _ => t
      | _ => ' ' :: t
    else c :: t

/-! ## normalize.js -/

/-- The set `CURLY_APOSTROPHES = /[‘’‛′]/`. -/
def isCurlyApos (c : Char) : Bool :=
  c.toNat = 0x2018 ∨ c.toNat = 0x2019 ∨ c.toNat = 0x201B ∨ c.toNat = 0x2032

/-- The set `CURLY_QUOTES = /[“”‟″]/`. -/
def isCurlyQuote (c : Char) : Bool :=
  c.toNat = 0x201C ∨ c.toNat = 0x201D ∨ c.toNat = 0x201F ∨ c.toNat = 0x2033

/-- `replace(CURLY_APOSTROPHES, "'")`. -/
def replaceCurlyApos (s : JStr) : JStr :=
  s.map (fun c => if isCurlyApos c then '\'' else c)

/-- `replace(CURLY_QUOTES, '"')`. -/
def replaceCurlyQuotes (s : JStr) : JStr :=
  s.map (fun c => if isCurlyQuote c then '"' else c)

/-- `replace(/[+&]/g, ' and ')`. -/
def andExpand (s : JStr) : JStr :=
  s.flatMap (fun c => if c = '+' ∨ c = '&' then " and ".data else [c])

/-- `replace(/\p{M}+/gu, '')`: every combining-mark character disappears. -/
def removeMarks (s : JStr) : JStr := s.filter (fun c => ¬ isMark c)

/-- `replace(/[\p{P}\p{S}]/gu, ' ')`: each punctuation or symbol character
becomes one space. -/
def punctToSpace (s : JStr) : JStr :=
  s.map (fun c => if isPunctSym c then ' ' else c)

/-- Decimal digits `\d`. -/
def isDigitCh (c : Char) : Bool := 0x30 ≤ c.toNat ∧ c.toNat ≤ 0x39

/-- Match of the regex group `(19\d{2}|20\d{2})` read as the four characters
`a b c d` in source order. -/
def isYear4 (a b c d : Char) : Bool :=
  ((a = '1' ∧ b = '9') ∨ (a = '2' ∧ b = '0')) ∧ isDigitCh c ∧ isDigitCh d

/-- Dash alternatives `[-–—]` of `TRAILING_YEAR_DASH_PATTERN`. -/
def isDashCh (c : Char) : Bool :=
  c.toNat = 0x2D ∨ c.toNat = 0x2013 ∨ c.toNat = 0x2014

/-- Suffix match of `TRAILING_YEAR_PAREN_PATTERN = /\s*\((19\d{2}|20\d{2})\)\s*$/`:
on success, the string with the matched suffix removed. -/
def parenYearSplit (s : JStr) : Option JStr :=
  match (s.reverse.dropWhile jsIsSpace) with
  | c0 :: d4 :: d3 :: d2 :: d1 :: c5 :: rest =>
    if c0 = ')' ∧ c5 = '(' ∧ isYear4 d1 d2 d3 d4 then
      some (rest.dropWhile jsIsSpace).reverse
    else none
  | _ => none

/-- Suffix match of `TRAILING_YEAR_BRACKET_PATTERN = /\s*\[(19\d{2}|20\d{2})\]\s*$/`. -/
def bracketYearSplit (s : JStr) : Option JStr :=
  match (s.reverse.dropWhile jsIsSpace) with
  | c0 :: d4 :: d3 :: d2 :: d1 :: c5 :: rest =>
    if c0 = ']' ∧ c5 = '[' ∧ isYear4 d1 d2 d3 d4 then
      some (rest.dropWhile jsIsSpace).reverse
    else none
  | _ => none

/-- Suffix match of `TRAILING_YEAR_DASH_PATTERN = /\s+[-–—]\s+(19\d{2}|20\d{2})\s*$/`. -/
def dashYearSplit (s : JStr) : Option JStr :=
  match (s.reverse.dropWhile jsIsSpace) with
  | d4 :: d3 :: d2 :: d1 :: rest =>
    if isYear4 d1 d2 d3 d4 then
      if (rest.dropWhile jsIsSpace).length < rest.length then
        match rest.dropWhile jsIsSpace with
        | dsh :: rest2 =>
          if isDashCh dsh then
            if (rest2.dropWhile jsIsSpace).length < rest2.length then
              some (rest2.dropWhile jsIsSpace).reverse
            else none
          else none
        | [] => none
      else none
    else none
  | _ => none

/-- Suffix match of `TRAILING_YEAR_TOKEN_PATTERN = /\s+(19\d{2}|20\d{2})\s*$/`:
on success, the string with the whitespace-plus-year suffix removed. -/
def bareYearSplit (s : JStr) : Option JStr :=
  match (s.reverse.dropWhile jsIsSpace) with
  | d4 :: d3 :: d2 :: d1 :: rest =>
    if isYear4 d1 d2 d3 d4 then
      if (rest.dropWhile jsIsSpace).length < rest.length then
        some (rest.dropWhile jsIsSpace).reverse
      else none
    else none
  | _ => none

/-- `x.replace(pat, '')` for an at-end year pattern: the string is unchanged
when the pattern does not match. -/
def applySplit (f : JStr → Option JStr) (s : JStr) : JStr := (f s).getD s

/-- The normalization applied to the base portion inside
`stripTrailingYearSuffix` (`NFKD`, lowercase, drop marks, punctuation to
space, collapse, trim). -/
def normalizedBaseOf (s : JStr) : JStr :=
  jsTrim (collapseWS (punctToSpace (removeMarks ((jsNFKD s).map jsToLower))))

/-- The chained replacements of the three wrapped-year patterns followed by
`.trim()` (`value.replace(paren,'').replace(bracket,'').replace(dash,'').trim()`). -/
def stripWrappedYears (value : JStr) : JStr :=
  jsTrim (applySplit dashYearSplit (applySplit bracketYearSplit (applySplit parenYearSplit value)))

/-- The conservative bare-trailing-year removal: strip ` YYYY` only when
the raw remainder is non-empty and its normalization is not `live`/`the`. -/
def bareYearStep (value : JStr) : JStr :=
  match bareYearSplit value with
  | none => value
  | some rest =>
    if jsTrim rest = [] then value
    else if normalizedBaseOf (jsTrim rest) = "live".data ∨
            normalizedBaseOf (jsTrim rest) = "the".data then value
    else jsTrim rest

/-- `stripTrailingYearSuffix` from server/normalize.js. -/
def stripTrailingYearSuffix (input : JStr) : JStr :=
  let value := jsTrim input
  if value = [] then value else bareYearStep (stripWrappedYears value)

/-- JS `\w` (for `\b` boundaries): ASCII letters, digits, underscore. -/
def isWordCh (c : Char) : Bool :=
  (0x61 ≤ c.toNat ∧ c.toNat ≤ 0x7A) ∨ (0x41 ≤ c.toNat ∧ c.toNat ≤ 0x5A) ∨
  isDigitCh c ∨ c.toNat = 0x5F

/-- Boundary test for the position after a matched token: end of string or
a non-`\w` character. -/
def noWordAhead : JStr → Bool
  | [] => true
  | c :: _ => ¬ isWordCh c

/-- Try to match one of the token alternatives (in order) as a prefix of
`s`, requiring a `\b` boundary after the token; returns the rest of `s`. -/
def altMatch (alts : List JStr) (s : JStr) : Option JStr :=
  match alts with
  | [] => none
  | a :: more =>
    if a ≠ [] ∧ a.isPrefixOf s ∧ noWordAhead (s.drop a.length) then
      some (s.drop a.length)
    else altMatch more s

/-- One global pass of `replace(/\bTOKEN\b/g, ' ')` for a word-boundary
token with ordered alternatives (greedy optional groups listed longest
first); `prevW` records whether the character before the current position
in the original string is a `\w` character.  Fuel-driven so the function
is structurally recursive; `tokenPass` supplies enough fuel. -/
def tokenPassGo (alts : List JStr) : Nat → Bool → JStr → JStr
  | 0, _, s => s
  | _ + 1, _, [] => []
  | fuel + 1, prevW, c :: rest =>
    if prevW then c :: tokenPassGo alts fuel (isWordCh c) rest
    else
      match altMatch alts (c :: rest) with
      | some rest1 => ' ' :: tokenPassGo alts fuel true rest1
      | none => c :: tokenPassGo alts fuel (isWordCh c) rest

/-- One pattern of the `SUFFIX_PATTERNS` loop. -/
def tokenPass (alts : List JStr) (s : JStr) : JStr :=
  tokenPassGo alts s.length false s

/-- The `SUFFIX_PATTERNS` list, in source order; optional groups are listed
as explicit alternatives, longest first. -/
def suffixPatternAlts : List (List JStr) :=
  [ ["deluxe".data],
    ["remastered".data, "remaster".data],
    ["anniversary".data],
    ["expanded".data],
    ["special edition".data],
    ["bonus tracks".data, "bonus track".data],
    ["edition".data] ]

/-- The `for (const pattern of SUFFIX_PATTERNS)` loop of `normalizeTitle`. -/
def editionTokenPasses (s : JStr) : JStr :=
  suffixPatternAlts.foldl (fun acc alts => tokenPass alts acc) s

/-- `normalizeTitle` from server/normalize.js. -/
def normalizeTitle (input : JStr) : JStr :=
  jsTrim (collapseWS (editionTokenPasses (punctToSpace (removeMarks
    (andExpand ((replaceCurlyQuotes (replaceCurlyApos
      (jsNFKD (stripTrailingYearSuffix input)))).map jsToLower))))))

/-- JS `split(' ')` (split on single plain spaces). -/
def splitOnSpace : JStr → List JStr
  | [] => [[]]
  | c :: rest =>
    let groups := splitOnSpace rest
    if c = ' ' then [] :: groups
    else
      match groups with
      | g :: gs => (c :: g) :: gs
      | [] => [[c]]

/-- `toTokenSet` from server/normalize.js: split on spaces, drop empties,
keep the distinct tokens (JS `Set` membership). -/
def toTokenSet (normalizedTitle : JStr) : List JStr :=
  ((splitOnSpace normalizedTitle).filter (fun t => t ≠ [])).dedup

/-- `isStrongTitleAliasMatch` from server/normalize.js, with the default
`minOverlap = 0.75`; the floating comparison `overlap / size >= 0.75` is
exact at these magnitudes and rendered as `4 * overlap ≥ 3 * size`. -/
def isStrongTitleAliasMatch (ownedN expectedN : JStr) : Bool :=
  if ownedN = [] ∨ expectedN = [] then false
  else if ownedN = expectedN then true
  else if ¬ (List.IsInfix expectedN ownedN ∨ List.IsInfix ownedN expectedN) then false
  else
    let ownedTokens := toTokenSet ownedN
    let expectedTokens := toTokenSet expectedN
    let smaller := if ownedTokens.length ≤ expectedTokens.length then ownedTokens else expectedTokens
    let larger := if ownedTokens.length ≤ expectedTokens.length then expectedTokens else ownedTokens
    if smaller.length < 3 then false
    else
      let overlap := smaller.countP (fun t => larger.contains t)
      3 * smaller.length ≤ 4 * overlap

/-! ## Discography service (computeSummary) -/

/-- JS string truthiness for an optional text column: `undefined`/`null`
and the empty string are falsy. -/
def strTruthy : Option JStr → Bool
  | none => false
  | some s => s ≠ []

/-- `a || b || ''` over optional strings, with JS falsiness. -/
def firstTruthyStr (a b : Option JStr) : JStr :=
  if strTruthy a then a.getD [] else if strTruthy b then b.getD [] else []

/-- Row of `expected_albums` as read by `computeSummary` (with
`secondaryTypes` already parsed from `secondaryTypesJson`). -/
structure ExpectedAlbum where
  id : Int
  title : JStr
  year : Option Int
  eaType : Option JStr
  primaryType : Option JStr
  secondaryTypes : List JStr
  normalizedTitle : JStr
  deriving Repr, DecidableEq

/-- Row of `albums` restricted to `deleted = 0 AND owned = 1` as read by
`computeSummary`. -/
structure OwnedAlbum where
  id : Int
  title : JStr
  deriving Repr, DecidableEq

/-- Row of `album_match_overrides`. -/
structure OverrideRow where
  expectedAlbumId : Int
  ownedAlbumId : Option Int
  deriving Repr, DecidableEq

/-- Per-artist settings as returned by `getArtistSettings`. -/
structure ArtistSettings where
  includeLive : Bool
  includeCompilations : Bool
  deriving Repr, DecidableEq

/-- The data `computeSummary` reads from the database for one artist. -/
structure SummaryInput where
  expectedAlbums : List ExpectedAlbum
  ownedAlbums : List OwnedAlbum
  overrides : List OverrideRow
  ignoredIds : List Int
  settings : ArtistSettings
  deriving Repr

/-- `shouldIncludeAlbum` from the discography service. -/
def shouldIncludeAlbum (e : ExpectedAlbum) (settings : ArtistSettings) : Bool :=
  let primaryType := (firstTruthyStr e.primaryType e.eaType).map jsToLower
  let secondaryTypes := e.secondaryTypes.map (fun t => t.map jsToLower)
  if ¬ settings.includeCompilations ∧ primaryType = "compilation".data then false
  else if ¬ settings.includeLive ∧ secondaryTypes.contains ("live".data) then false
  else true

/-- An owned album paired with its normalized title
(`ownedAlbumsWithNormalized`). -/
structure OwnedNorm where
  id : Int
  title : JStr
  normalizedTitle : JStr
  deriving Repr, DecidableEq

/-- `ownedAlbumsWithNormalized` of `computeSummary`. -/
def ownedWithNormalized (inp : SummaryInput) : List OwnedNorm :=
  inp.ownedAlbums.map (fun a => ⟨a.id, a.title, normalizeTitle a.title⟩)

/-- `overrideMap.get(id)`: a JS `Map` built from a pair list keeps the
last entry for each key. -/
def overrideLookup (rows : List OverrideRow) (id : Int) : Option (Option Int) :=
  (rows.reverse.find? (fun r => r.expectedAlbumId = id)).map (·.ownedAlbumId)

/-- `Boolean(overrideMap.get(expected.id))`. -/
def overrideTruthy (rows : List OverrideRow) (id : Int) : Bool :=
  match overrideLookup rows id with
  | some (some v) => v ≠ 0
  | _ => false

/-- The per-expected-album match decision of `computeSummary`
(`hasMatch`): a truthy override entry, a normalized-title equality with
some owned album, or a strong alias match with some owned album. -/
def albumHasMatch (inp : SummaryInput) (e : ExpectedAlbum) : Bool :=
  overrideTruthy inp.overrides e.id ∨
  ((ownedWithNormalized inp).filter (fun o => o.normalizedTitle = e.normalizedTitle)) ≠ [] ∨
  (ownedWithNormalized inp).any (fun o => isStrongTitleAliasMatch o.normalizedTitle e.normalizedTitle)

/-- Projection pushed onto `missingAlbums`. -/
structure MissingEntry where
  id : Int
  title : JStr
  year : Option Int
  eaType : Option JStr
  primaryType : Option JStr
  secondaryTypes : List JStr
  normalizedTitle : JStr
  deriving Repr, DecidableEq

/-- The record pushed for an unmatched, listed expected album. -/
def toMissingEntry (e : ExpectedAlbum) : MissingEntry :=
  ⟨e.id, e.title, e.year, e.eaType, e.primaryType, e.secondaryTypes, e.normalizedTitle⟩

/-- The `for (const expected of expectedAlbums)` loop of `computeSummary`,
accumulating `matchedCount` and `missingAlbums` in order. -/
def summaryLoop (inp : SummaryInput) : Nat × List MissingEntry :=
  inp.expectedAlbums.foldl
    (fun acc e =>
      if albumHasMatch inp e then (acc.1 + 1, acc.2)
      else if ¬ inp.ignoredIds.contains e.id ∧ shouldIncludeAlbum e inp.settings then
        (acc.1, acc.2 ++ [toMissingEntry e])
      else acc)
    (0, [])

/-- The set `expectedNormalizedTitles`. -/
def expectedNormalizedTitles (inp : SummaryInput) : List JStr :=
  inp.expectedAlbums.map (·.normalizedTitle)

/-- The set `overrideOwnedIds` (integer, positive owned ids only). -/
def overrideOwnedIds (inp : SummaryInput) : List Int :=
  (inp.overrides.map (·.ownedAlbumId)).foldr
    (fun v acc => match v with | some n => if 0 < n then n :: acc else acc | none => acc) []

/-- The predicate of the `matchedOwnedAlbums` filter. -/
def ownedMatchedPred (inp : SummaryInput) (o : OwnedNorm) : Bool :=
  (overrideOwnedIds inp).contains o.id ∨
  (expectedNormalizedTitles inp).contains o.normalizedTitle ∨
  inp.expectedAlbums.any (fun e => isStrongTitleAliasMatch o.normalizedTitle e.normalizedTitle)

/-- The predicate of the `unmatchedOwnedAlbums` filter. -/
def ownedUnmatchedPred (inp : SummaryInput) (o : OwnedNorm) : Bool :=
  ¬ (overrideOwnedIds inp).contains o.id ∧
  ¬ (expectedNormalizedTitles inp).contains o.normalizedTitle ∧
  ¬ inp.expectedAlbums.any (fun e => isStrongTitleAliasMatch o.normalizedTitle e.normalizedTitle)

/-- `Math.round` on an exact rational (round half toward positive
infinity), as applied to the completion percentage. -/
def jsRound (q : ℚ) : ℤ := ⌊q + 1/2⌋

/-- Result record of `computeSummary` (the `artist` pass-through column is
omitted). -/
structure Summary where
  settings : ArtistSettings
  ownedCount : Nat
  expectedCount : Nat
  missingCount : Nat
  ignoredCount : Nat
  completionPct : Option Int
  missingAlbums : List MissingEntry
  matchedOwnedCount : Nat
  matchedOwnedAlbums : List OwnedNorm
  unmatchedOwnedAlbums : List OwnedNorm
  deriving Repr

/-- `computeSummary` from the discography service, as a pure function of
the rows it reads. -/
def computeSummary (inp : SummaryInput) : Summary :=
  let loopOut := summaryLoop inp
  let matchedCount := loopOut.1
  let missingAlbums := loopOut.2
  let expectedCount := inp.expectedAlbums.length
  let matchedOwnedAlbums := (ownedWithNormalized inp).filter (ownedMatchedPred inp)
  let unmatchedOwnedAlbums := (ownedWithNormalized inp).filter (ownedUnmatchedPred inp)
  { settings := inp.settings
    ownedCount := inp.ownedAlbums.length
    expectedCount := expectedCount
    missingCount := missingAlbums.length
    ignoredCount := inp.ignoredIds.dedup.length
    completionPct :=
      if expectedCount = 0 then none
      else some (jsRound ((matchedCount : ℚ) / (expectedCount : ℚ) * 100))
    missingAlbums := missingAlbums
    matchedOwnedCount := matchedOwnedAlbums.length
    matchedOwnedAlbums := matchedOwnedAlbums
    unmatchedOwnedAlbums := unmatchedOwnedAlbums }

/-! ## Discography service (syncExpectedForArtist transaction) -/

/-- Row of `expected_albums` as written by the sync transaction (columns
not read by the claims are carried as `title`). -/
structure ExpAlbumRow where
  expectedArtistId : Int
  mbReleaseGroupId : Option JStr
  title : JStr
  updatedAt : Nat
  deriving Repr, DecidableEq

/-- A release fetched from the metadata service, as consumed by the sync
transaction. -/
structure FetchedAlbum where
  mbReleaseGroupId : Option JStr
  title : JStr
  deriving Repr, DecidableEq

/-- One iteration of the transaction body: `INSERT ... ON CONFLICT
(expectedArtistId, mb_release_group_id) DO UPDATE` when the release-group
id is present, a plain `INSERT` otherwise. -/
def syncStep (eaId : Int) (now : Nat) (table : List ExpAlbumRow) (a : FetchedAlbum) :
    List ExpAlbumRow :=
  match a.mbReleaseGroupId with
  | some g =>
    if table.any (fun r => r.expectedArtistId = eaId ∧ r.mbReleaseGroupId = some g) then
      table.map (fun r =>
        if r.expectedArtistId = eaId ∧ r.mbReleaseGroupId = some g then
          { r with title := a.title, updatedAt := now }
        else r)
    else table ++ [⟨eaId, some g, a.title, now⟩]
  | none => table ++ [⟨eaId, none, a.title, now⟩]

/-- The sync transaction: upsert every fetched release, then
`DELETE FROM expected_albums WHERE expectedArtistId = ? AND updatedAt < now`. -/
def syncExpectedTx (eaId : Int) (now : Nat) (albums : List FetchedAlbum)
    (table : List ExpAlbumRow) : List ExpAlbumRow :=
  (albums.foldl (syncStep eaId now) table).filter
    (fun r => ¬ (r.expectedArtistId = eaId ∧ r.updatedAt < now))

/-! ## slug.js: SHA-1 and shortHash -/

/-- 2^32, the word modulus of SHA-1. -/
def w32 : Nat := 4294967296

/-- Rotate a 32-bit word left by `n`. -/
def rotl32 (n x : Nat) : Nat := (((x <<< n) % w32) ||| (x >>> (32 - n))) % w32

/-- UTF-8 encoding of one Unicode scalar. -/
def utf8Char (c : Char) : List Nat :=
  let v := c.val.toNat
  if v < 0x80 then [v]
  else if v < 0x800 then [0xC0 ||| (v >>> 6), 0x80 ||| (v &&& 0x3F)]
  else if v < 0x10000 then
    [0xE0 ||| (v >>> 12), 0x80 ||| ((v >>> 6) &&& 0x3F), 0x80 ||| (v &&& 0x3F)]
  else
    [0xF0 ||| (v >>> 18), 0x80 ||| ((v >>> 12) &&& 0x3F),
     0x80 ||| ((v >>> 6) &&& 0x3F), 0x80 ||| (v &&& 0x3F)]

/-- UTF-8 encoding of a JS string (Node hashes strings as UTF-8). -/
def utf8Bytes (s : JStr) : List Nat := s.flatMap utf8Char

/-- SHA-1 message padding: `0x80`, zeros to 56 mod 64, 8-byte big-endian
bit length. -/
def sha1Pad (msg : List Nat) : List Nat :=
  let len := msg.length
  let zeros := (119 - len % 64) % 64
  let bits := len * 8
  msg ++ [0x80] ++ List.replicate zeros 0 ++
    (List.range 8).map (fun i => (bits >>> (8 * (7 - i))) &&& 0xFF)

/-- Split a padded message into 64-byte blocks (`fuel` = block count). -/
def sha1Chunks : Nat → List Nat → List (List Nat)
  | 0, _ => []
  | fuel + 1, l => l.take 64 :: sha1Chunks fuel (l.drop 64)

/-- Big-endian 32-bit words of one 64-byte block. -/
def sha1Words (block : List Nat) : List Nat :=
  (List.range 16).map (fun i =>
    (block.getD (4 * i) 0 <<< 24) ||| (block.getD (4 * i + 1) 0 <<< 16) |||
    (block.getD (4 * i + 2) 0 <<< 8) ||| block.getD (4 * i + 3) 0)

/-- Message-schedule extension to 80 words. -/
def sha1Extend (w : List Nat) : List Nat :=
  (List.range 64).foldl
    (fun w _ =>
      let i := w.length
      w ++ [rotl32 1 ((w.getD (i - 3) 0) ^^^ (w.getD (i - 8) 0) ^^^
                      (w.getD (i - 14) 0) ^^^ (w.getD (i - 16) 0))])
    w

/-- One SHA-1 round. -/
def sha1Round (st : Nat × Nat × Nat × Nat × Nat) (i wi : Nat) :
    Nat × Nat × Nat × Nat × Nat :=
  let (a, b, c, d, e) := st
  let f :=
    if i < 20 then (b &&& c) ||| ((b ^^^ (w32 - 1)) &&& d)
    else if i < 40 then b ^^^ c ^^^ d
    else if i < 60 then (b &&& c) ||| (b &&& d) ||| (c &&& d)
    else b ^^^ c ^^^ d
  let k :=
    if i < 20 then 0x5A827999
    else if i < 40 then 0x6ED9EBA1
    else if i < 60 then 0x8F1BBCDC
    else 0xCA62C1D6
  let temp := (rotl32 5 a + f + e + k + wi) % w32
  (temp, a, rotl32 30 b, c, d)

/-- Process one block against the running state. -/
def sha1Block (h : Nat × Nat × Nat × Nat × Nat) (block : List Nat) :
    Nat × Nat × Nat × Nat × Nat :=
  let ws := sha1Extend (sha1Words block)
  let (a, b, c, d, e) :=
    (List.range 80).foldl (fun st i => sha1Round st i (ws.getD i 0)) h
  let (h0, h1, h2, h3, h4) := h
  ((h0 + a) % w32, (h1 + b) % w32, (h2 + c) % w32, (h3 + d) % w32, (h4 + e) % w32)

/-- Fixed-width lowercase hexadecimal rendering of a 32-bit word. -/
def hex8 (x : Nat) : JStr :=
  (List.range 8).map (fun i => Nat.digitChar ((x >>> (4 * (7 - i))) &&& 0xF))

/-- Lowercase hex SHA-1 digest of a byte sequence. -/
def sha1Hex (msg : List Nat) : JStr :=
  let padded := sha1Pad msg
  let blocks := sha1Chunks (padded.length / 64) padded
  let (h0, h1, h2, h3, h4) :=
    blocks.foldl sha1Block (0x67452301, 0xEFCDAB89, 0x98BADCFE, 0x10325476, 0xC3D2E1F0)
  hex8 h0 ++ hex8 h1 ++ hex8 h2 ++ hex8 h3 ++ hex8 h4

/-- `shortHash` from server/slug.js: first 8 hex characters of the SHA-1 of
the string. -/
def shortHash (value : JStr) : JStr := (sha1Hex (utf8Bytes value)).take 8

/-! ## Scanner pure helpers (the newer scanner of part_007) -/

/-- Collapse every run of characters satisfying `p` into a single `rep`
(the shape of `replace(/CLASS+/g, rep)`). -/
def runsToChar (p : Char → Bool) (rep : Char) : JStr → JStr
  | [] => []
  | c :: rest =>
    let t := runsToChar p rep rest
    if p c then
      match t with
      | c1 :: _ => if c1 = rep then t else rep :: t
      | [] => [rep]
    else c :: t

/-- Lowercase ASCII letters and digits (`[a-z0-9]`). -/
def isLowerAlnum (c : Char) : Bool := (0x61 ≤ c.toNat ∧ c.toNat ≤ 0x7A) ∨ isDigitCh c

/-- The apostrophe set `[’'`]` removed by the scanner's comparison
normalizer (right single quote, ASCII apostrophe, backtick). -/
def isAposLike (c : Char) : Bool :=
  c.toNat = 0x2019 ∨ c.toNat = 0x27 ∨ c.toNat = 0x60

/-- `normalizeCompareValue` from the scanner: lowercase, NFKD, drop
apostrophes, squeeze non-alphanumerics to single spaces, trim. -/
def normalizeCompareValue (value : JStr) : JStr :=
  jsTrim (runsToChar (fun c => ¬ isLowerAlnum c) ' '
    ((jsNFKD (value.map jsToLower)).filter (fun c => ¬ isAposLike c)))

/-- `normalizeAlbumKey` from the scanner: lowercase, NFKD, drop
apostrophes, squeeze non-alphanumerics to dashes, strip dash runs at the
ends, keep at most 80 characters. -/
def normalizeAlbumKey (value : JStr) : JStr :=
  let base := runsToChar (fun c => ¬ isLowerAlnum c) '-'
    ((jsNFKD (value.map jsToLower)).filter (fun c => ¬ isAposLike c))
  (((base.dropWhile (· = '-')).reverse.dropWhile (· = '-')).reverse).take 80

/-- `createVirtualAlbumPath`: `{artistPath}/.crate/{slug}-{sha1[0..8]}`. -/
def createVirtualAlbumPath (artistPath albumTitle : JStr) : JStr :=
  let slugPart := normalizeAlbumKey albumTitle
  let slugPart := if slugPart = [] then "unknown-album".data else slugPart
  let hash := (sha1Hex (utf8Bytes albumTitle)).take 8
  artistPath ++ "/.crate/".data ++ slugPart ++ "-".data ++ hash

/-- `buildAlbumGroupKey`. -/
def buildAlbumGroupKey (albumName albumArtistName : JStr) : JStr :=
  normalizeCompareValue albumArtistName ++ "::".data ++ normalizeCompareValue albumName

/-- Decimal rendering of a natural number (JS template interpolation). -/
def natToJStr (n : Nat) : JStr := Nat.toDigits 10 n

/-- Decimal rendering of an integer. -/
def intToJStr (n : Int) : JStr :=
  if n < 0 then '-' :: natToJStr n.natAbs else natToJStr n.natAbs

/-- `normalizePathForHash`: backslashes to slashes, lowercase. -/
def normalizePathForHash (filePath : JStr) : JStr :=
  filePath.map (fun c => jsToLower (if c = '\\' then '/' else c))

/-- Tag-reader output record (`{album, albumArtist, artist, year}`). -/
structure TagRec where
  album : Option JStr
  albumArtist : Option JStr
  artist : Option JStr
  year : Option JStr
  deriving Repr, DecidableEq

/-- `resolveArtistNameFromTags`: `albumArtist || artist || fallback`. -/
def resolveArtistNameFromTags (t : Option TagRec) (fallbackArtistName : JStr) : JStr :=
  match t with
  | some r =>
    if strTruthy r.albumArtist then r.albumArtist.getD []
    else if strTruthy r.artist then r.artist.getD []
    else fallbackArtistName
  | none => fallbackArtistName

/-- The fields of `buildTrackMetadata`'s result that the scan loop reads.
The `file_index` cache and the tag-reading I/O are not re-modelled here:
the environment supplies each candidate's `tagInfo` (and whether building
the metadata threw), which is the whole interface the loop consumes. -/
structure Metadata where
  path : JStr
  ext : JStr
  mtime : ℚ
  size : Nat
  inodeKey : Option JStr
  tagInfo : Option TagRec
  albumTitle : JStr
  albumArtistName : JStr
  deriving Repr

/-- `computeDedupeKey` from the scanner. -/
def computeDedupeKey (m : Metadata) : JStr :=
  if strTruthy m.inodeKey then "inode:".data ++ m.inodeKey.getD []
  else
    "fallback:".data ++ natToJStr m.size ++ ":".data ++
    intToJStr (jsRound m.mtime) ++ ":".data ++
    shortHash (normalizePathForHash m.path)

/-- `normalizeSkipReason` from the scanner. -/
def normalizeSkipReason (reason : JStr) : JStr :=
  let value := (if reason = [] then "unknown".data else reason).map jsToLower
  if ("unsupported-extension".data).isPrefixOf value then "unsupported extension".data
  else if ("unreadable".data).isPrefixOf value ∨ ("unreadable-directory".data).isPrefixOf value ∨
          ("unreadable-path".data).isPrefixOf value then "unreadable".data
  else if ("missing-album-tag".data).isPrefixOf value then "missing album tag".data
  else if ("missing-artist-tag".data).isPrefixOf value then "missing artist tag".data
  else if ("deduped".data).isPrefixOf value then "duplicate".data
  else if ("parse-error".data).isPrefixOf value then "parse error".data
  else if reason = [] then "other".data else reason

/-! ## Scanner run model

The asynchronous `runScan` of the newer scanner is modelled as a pure
state-passing function.  The filesystem walk is summarised by the
environment (each artist directory carries the candidate list the walker
would produce together with the raw skip reasons it reported), and the
cancellation flag is modelled by a threshold: the `k`-th read of
`this.cancelRequested` returns true iff `cancelAfter = some n` with
`n ≤ k`, which captures exactly the monotone set-once flag.  The
`file_index` cache, the intermediate `updateScanProgress` writes (all
overwritten by the final transaction) and the `error` path for an
unreadable library root are outside the claims and not modelled. -/

/-- Row of `artists` (columns the scan touches). -/
structure ArtistRow where
  id : Int
  name : JStr
  lastSeen : Nat
  deleted : Bool
  deriving Repr, DecidableEq

/-- Row of `albums` (columns the scan touches). -/
structure AlbumRow where
  id : Int
  artistId : Int
  title : JStr
  path : JStr
  lastSeen : Nat
  lastFileMtime : Option ℚ
  formats : List JStr
  trackCount : Nat
  deleted : Bool
  deriving Repr

/-- Row of `tracks`. -/
structure TrackRow where
  path : JStr
  albumId : Int
  ext : JStr
  mtime : ℚ
  lastSeen : Nat
  deleted : Bool
  deriving Repr, DecidableEq

/-- The singleton `scan_state` row. -/
structure ScanStateRow where
  status : JStr
  startedAt : Option Nat
  finishedAt : Option Nat
  scannedFiles : Nat
  scannedAlbums : Nat
  scannedArtists : Nat
  skippedFiles : Nat
  skippedReasons : List (JStr × Nat)
  deriving Repr

/-- The database state the scan reads and writes. -/
structure ScanDB where
  artists : List ArtistRow
  albums : List AlbumRow
  tracks : List TrackRow
  scanState : ScanStateRow
  scanSkipped : List (Nat × JStr × JStr)
  settingsLastScanAt : Option Nat
  deriving Repr

/-- A candidate audio file as produced by the walker, together with the
tag-reader outcome the environment assigns to it. -/
structure Candidate where
  path : JStr
  ext : JStr
  mtime : ℚ
  size : Nat
  inodeKey : Option JStr
  tagInfo : Option TagRec
  throws : Bool
  deriving Repr

/-- Metadata assembled by `buildTrackMetadata` for a candidate (the
`parseAlbumFromFilename` fallback for `albumTitle` is only reachable for
candidates the admission filter rejects for a falsy album tag, so the
admitted value is always the album tag itself). -/
def buildMetadata (artistName : JStr) (c : Candidate) : Metadata :=
  { path := c.path, ext := c.ext, mtime := c.mtime, size := c.size
    inodeKey := c.inodeKey, tagInfo := c.tagInfo
    albumTitle := (c.tagInfo.bind (·.album)).getD []
    albumArtistName := resolveArtistNameFromTags c.tagInfo artistName }

/-- One artist directory of the environment. -/
structure ArtistDirEnv where
  name : JStr
  tracks : List Candidate
  walkerSkips : List (JStr × JStr)
  deriving Repr

/-- A scan environment. -/
structure ScanEnv where
  libraryPath : JStr
  dirs : List ArtistDirEnv
  cancelAfter : Option Nat
  scanArtistId : Option Int
  deriving Repr

/-- The value of `this.cancelRequested` at the `k`-th read. -/
def cancelFlag (env : ScanEnv) (k : Nat) : Bool :=
  match env.cancelAfter with
  | some n => n ≤ k
  | none => false

/-- Mutable loop state of a running scan. -/
structure ScanSt where
  db : ScanDB
  scannedFiles : Nat
  scannedAlbums : Nat
  skippedFiles : Nat
  skippedReasons : List (JStr × Nat)
  artistsSeen : List Int
  seenKeys : List JStr
  cp : Nat
  deriving Repr

/-- Read the cancellation flag (consumes one read tick). -/
def cancelRead (env : ScanEnv) (st : ScanSt) : Bool × ScanSt :=
  (cancelFlag env st.cp, { st with cp := st.cp + 1 })

/-- Bump `skippedReasons[reason]` (JS object property update, preserving
insertion order). -/
def bumpReason (m : List (JStr × Nat)) (r : JStr) : List (JStr × Nat) :=
  if m.any (fun p => p.1 = r) then
    m.map (fun p => if p.1 = r then (p.1, p.2 + 1) else p)
  else m ++ [(r, 1)]

/-- Lookup in the skipped-reasons breakdown. -/
def lookupReason (m : List (JStr × Nat)) (r : JStr) : Option Nat :=
  (m.find? (fun p => p.1 = r)).map (·.2)

/-- `upsertArtist`: refresh `lastSeen` and clear `deleted` for an existing
name, else insert with a fresh id (`AUTOINCREMENT` modelled as max id + 1;
the `slug` column is not touched by any claim and omitted). -/
def upsertArtist (name : JStr) (seenAt : Nat) (db : ScanDB) : Int × ScanDB :=
  match db.artists.find? (fun a => a.name = name) with
  | some a =>
    (a.id,
     { db with artists := db.artists.map (fun r =>
         if r.id = a.id then { r with lastSeen := seenAt, deleted := false } else r) })
  | none =>
    let fresh := (db.artists.map (·.id)).foldl max 0 + 1
    (fresh, { db with artists := db.artists ++ [⟨fresh, name, seenAt, false⟩] })

/-- `upsertAlbum` (keyed on the virtual `path`). -/
def upsertAlbum (artistId : Int) (title albumPath : JStr) (seenAt : Nat)
    (formats : List JStr) (trackCount : Nat) (lastFileMtime : Option ℚ)
    (db : ScanDB) : Int × ScanDB :=
  match db.albums.find? (fun a => a.path = albumPath) with
  | some a =>
    (a.id,
     { db with albums := db.albums.map (fun r =>
         if r.id = a.id then
           { r with artistId := artistId, title := title, lastSeen := seenAt,
                    lastFileMtime := lastFileMtime, formats := formats,
                    trackCount := trackCount, deleted := false }
         else r) })
  | none =>
    let fresh := (db.albums.map (·.id)).foldl max 0 + 1
    (fresh,
     { db with albums := db.albums ++
         [⟨fresh, artistId, title, albumPath, seenAt, lastFileMtime, formats, trackCount, false⟩] })

/-- `syncTracks`: upsert each track by `path`, then soft-delete the album's
tracks whose `lastSeen` predates this sync. -/
def syncTracks (albumId : Int) (tracks : List Candidate) (seenAt : Nat) (db : ScanDB) : ScanDB :=
  let db := tracks.foldl
    (fun db t =>
      if db.tracks.any (fun r => r.path = t.path) then
        { db with tracks := db.tracks.map (fun r =>
            if r.path = t.path then
              { r with albumId := albumId, lastSeen := seenAt, mtime := t.mtime,
                       ext := t.ext, deleted := false }
            else r) }
      else
        { db with tracks := db.tracks ++ [⟨t.path, albumId, t.ext, t.mtime, seenAt, false⟩] })
    db
  { db with tracks := db.tracks.map (fun r =>
      if r.albumId = albumId ∧ r.lastSeen < seenAt then { r with deleted := true } else r) }

/-- JS default string comparison (UTF-16 code-unit order; the modelled
characters are all in the BMP, where scalar order coincides). -/
def jsStrLt : JStr → JStr → Bool
  | [], [] => false
  | [], _ :: _ => true
  | _ :: _, [] => false
  | a :: as, b :: bs =>
    if a.val < b.val then true else if b.val < a.val then false else jsStrLt as bs

/-- Insertion into a sorted string list. -/
def insertSorted (x : JStr) : List JStr → List JStr
  | [] => [x]
  | y :: ys => if jsStrLt x y then x :: y :: ys else y :: insertSorted x ys

/-- `Array.from(set).sort()` over strings. -/
def sortStrs (l : List JStr) : List JStr := l.foldr insertSorted []

/-- `syncAlbum`: returns the track count (none for an empty group). -/
def syncAlbum (artistId : Int) (title albumPath : JStr) (tracks : List Candidate)
    (seenAt : Nat) (db : ScanDB) : Option Nat × ScanDB :=
  if tracks.length = 0 then (none, db)
  else
    let formats := sortStrs ((tracks.map (·.ext)).dedup)
    let latest := (tracks.map (·.mtime)).foldl max 0
    let (albumId, db) := upsertAlbum artistId title albumPath seenAt formats tracks.length
      (if latest = 0 then none else some latest) db
    (some tracks.length, syncTracks albumId tracks seenAt db)

/-- An album group accumulated by the per-artist track loop. -/
structure AlbumGroup where
  title : JStr
  albumPath : JStr
  tracks : List Candidate
  deriving Repr

/-- Append a track to the group of its key, creating the group on first
use (JS `Map` insertion order). -/
def groupInsert (groups : List (JStr × AlbumGroup)) (key : JStr)
    (mkGroup : AlbumGroup) (c : Candidate) : List (JStr × AlbumGroup) :=
  if groups.any (fun g => g.1 = key) then
    groups.map (fun g => if g.1 = key then (g.1, { g.2 with tracks := g.2.tracks ++ [c] }) else g)
  else groups ++ [(key, { mkGroup with tracks := [c] })]

/-- The admission decision for one candidate: `none` when admitted, or the
raw skip reason. -/
def admissionSkip (artistName : JStr) (seenKeys : List JStr) (c : Candidate) : Option JStr :=
  let m := buildMetadata artistName c
  if c.throws then some ("parse-error:".data)
  else if ¬ strTruthy (c.tagInfo.bind (·.album)) then some ("missing-album-tag".data)
  else if ¬ strTruthy (c.tagInfo.bind (·.albumArtist)) ∧ ¬ strTruthy (c.tagInfo.bind (·.artist)) then
    some ("missing-artist-tag".data)
  else
    let normalizedTaggedArtist := normalizeCompareValue m.albumArtistName
    let normalizedArtist := normalizeCompareValue artistName
    if normalizedArtist ≠ [] ∧ normalizedTaggedArtist ≠ [] ∧ normalizedArtist ≠ normalizedTaggedArtist then
      some ("missing-artist-tag:mismatch:".data ++ m.albumArtistName)
    else if seenKeys.contains (computeDedupeKey m) then
      some ("deduped:".data ++ computeDedupeKey m)
    else none

/-- The per-artist `for (const track of artistTracks)` loop; returns the
state, the grouped albums and the accumulated skip list (skip reasons are
canonicalized on push, as `pushSkip` does). -/
def trackLoop (env : ScanEnv) (artistName artistPath : JStr) :
    ScanSt → List (JStr × AlbumGroup) → List (JStr × JStr) → List Candidate →
    ScanSt × List (JStr × AlbumGroup) × List (JStr × JStr)
  | st, groups, skipped, [] => (st, groups, skipped)
  | st, groups, skipped, c :: rest =>
    let r := cancelRead env st
    if r.1 then (r.2, groups, skipped)
    else
      let st := r.2
      match admissionSkip artistName st.seenKeys c with
      | some reason =>
        trackLoop env artistName artistPath st groups
          (skipped ++ [(c.path, normalizeSkipReason reason)]) rest
      | none =>
        let m := buildMetadata artistName c
        let st := { st with seenKeys := st.seenKeys ++ [computeDedupeKey m] }
        let key := buildAlbumGroupKey m.albumTitle m.albumArtistName
        let groups := groupInsert groups key
          ⟨m.albumTitle,
           createVirtualAlbumPath artistPath (m.albumArtistName ++ "-".data ++ m.albumTitle),
           []⟩ c
        trackLoop env artistName artistPath st groups skipped rest

/-- The album-sync loop over the grouped candidates. -/
def albumSyncLoop (artistId : Int) (seenAt : Nat) (st : ScanSt)
    (groups : List (JStr × AlbumGroup)) : ScanSt :=
  groups.foldl
    (fun st g =>
      let r := syncAlbum artistId g.2.title g.2.albumPath g.2.tracks seenAt st.db
      match r.1 with
      | none => { st with db := r.2 }
      | some 0 => { st with db := r.2 }
      | some n =>
        { st with db := r.2, scannedAlbums := st.scannedAlbums + 1,
                  scannedFiles := st.scannedFiles + n })
    st

/-- The `for (const artistEntry of artistDirs)` loop. -/
def artistLoop (env : ScanEnv) (seenAt : Nat) : ScanSt → List ArtistDirEnv → ScanSt
  | st, [] => st
  | st, d :: rest =>
    let r := cancelRead env st
    if r.1 then r.2
    else
      let st := r.2
      let artistPath := env.libraryPath ++ "/".data ++ d.name
      let upA := upsertArtist d.name seenAt st.db
      let seen1 := if st.artistsSeen.contains upA.1 then st.artistsSeen
                   else st.artistsSeen ++ [upA.1]
      let st := { st with db := upA.2, artistsSeen := seen1 }
      let skipped0 := d.walkerSkips.map (fun p => (p.1, normalizeSkipReason p.2))
      let tl := trackLoop env d.name artistPath st [] skipped0 d.tracks
      let st := tl.1
      let r2 := cancelRead env st
      if r2.1 then r2.2
      else
        let st := r2.2
        let st := albumSyncLoop upA.1 seenAt st tl.2.1
        let st := tl.2.2.foldl
          (fun st item =>
            { st with skippedFiles := st.skippedFiles + 1,
                      skippedReasons := bumpReason st.skippedReasons item.2 }) st
        let st := { st with db := { st.db with
          scanSkipped := st.db.scanSkipped ++ tl.2.2.map (fun p => (seenAt, p.1, p.2)) } }
        artistLoop env seenAt st rest

/-- The final sweep of a full-library run: soft-delete rows not seen by
this scan. -/
def sweepAll (db : ScanDB) (seenAt : Nat) : ScanDB :=
  { db with
    tracks := db.tracks.map (fun r => if r.lastSeen < seenAt then { r with deleted := true } else r)
    albums := db.albums.map (fun r => if r.lastSeen < seenAt then { r with deleted := true } else r)
    artists := db.artists.map (fun r => if r.lastSeen < seenAt then { r with deleted := true } else r) }

/-- `runScan` of the newer scanner: reset state, run the artist loop, then
the single finalize transaction (sweep for full-library runs, `settings`
timestamp, final `scan_state` row whose status is `cancelled` iff the flag
is set when the transaction runs). -/
def runScan (db0 : ScanDB) (env : ScanEnv) (seenAt finishedAt : Nat) : ScanDB :=
  let db0 := { db0 with
    scanSkipped := db0.scanSkipped.filter (fun r => ¬ r.1 < seenAt)
    scanState := { status := "running".data, startedAt := some seenAt, finishedAt := none,
                   scannedFiles := 0, scannedAlbums := 0, scannedArtists := 0,
                   skippedFiles := 0, skippedReasons := [] } }
  let st := artistLoop env seenAt
    { db := db0, scannedFiles := 0, scannedAlbums := 0, skippedFiles := 0,
      skippedReasons := [], artistsSeen := [], seenKeys := [], cp := 0 }
    env.dirs
  let db := st.db
  let db := if env.scanArtistId = none then sweepAll db seenAt else db
  { db with
    settingsLastScanAt := some finishedAt
    scanState := { status := if cancelFlag env st.cp then "cancelled".data else "idle".data
                   startedAt := some seenAt, finishedAt := some finishedAt,
                   scannedFiles := st.scannedFiles, scannedAlbums := st.scannedAlbums,
                   scannedArtists := st.artistsSeen.length,
                   skippedFiles := st.skippedFiles, skippedReasons := st.skippedReasons } }

/-! ## Metadata client: request scheduling (musicbrainz.js)

`scheduleRequest` chains every request onto one promise queue.  When the
`i`-th queued thunk starts (at the completion time of the previous one) it
computes `waitMs = max(0, 1000 - (now - lastRequestAt))`, sleeps, then sets
`lastRequestAt = Date.now()` immediately before issuing the attempt.  The
timing is modelled for single-attempt requests: `reqStart d t0 i` and
`reqEnd d t0 i` are the start and end instants of request `i` when request
`i` runs for `d i` milliseconds, the first thunk runs at time `t0`, and
`lastRequestAt` is initially `0`. -/

/-- Start instant of the `i`-th request issued through the queue. -/
def reqStart (d : Nat → Nat) (t0 : Nat) : Nat → Nat
  | 0 => t0 + (1000 - t0)
  | i + 1 =>
    let s := reqStart d t0 i
    let e := s + d i
    e + (1000 - (e - s))

/-- End instant of the `i`-th request. -/
def reqEnd (d : Nat → Nat) (t0 : Nat) (i : Nat) : Nat := reqStart d t0 i + d i

/-! ## Metadata client: attempt loop (musicbrainz.js)

The `for (attempt = 0; attempt <= MAX_RETRIES; ...)` body is modelled as a
function of the outcome of each attempt.  An HTTP response carries its
status; a thrown fetch error is either an abort (timeout) or a network
error whose message may match `/fetch failed/`. -/

/-- Outcome of one attempt of `scheduleRequest`'s loop. -/
inductive AttemptOutcome where
  | ok
  | http (status : Nat)
  | netErr (fetchFailed : Bool)
  | tmout
  deriving Repr, DecidableEq

/-- Result of the loop: success or an error with the `statusCode` the
thrown `createHttpError` carries, together with the number of attempts
performed. -/
inductive ReqResult where
  | success (attempts : Nat)
  | failure (statusCode : Nat) (attempts : Nat)
  deriving Repr, DecidableEq

/-- `MAX_RETRIES`. -/
def maxRetries : Nat := 2

/-- The retry loop of `scheduleRequest`, from attempt index `attempt`
(`fuel` bounds the remaining iterations; `maxRetries + 1` at the start). -/
def attemptLoop (out : Nat → AttemptOutcome) : Nat → Nat → ReqResult
  | 0, attempt => ReqResult.failure 502 attempt
  | fuel + 1, attempt =>
    match out attempt with
    | AttemptOutcome.ok => ReqResult.success (attempt + 1)
    | AttemptOutcome.http s =>
      if (s = 429 ∨ s = 503) ∧ attempt < maxRetries then attemptLoop out fuel (attempt + 1)
      else ReqResult.failure s (attempt + 1)
    | AttemptOutcome.netErr ff =>
      if attempt < maxRetries ∧ ff then attemptLoop out fuel (attempt + 1)
      else ReqResult.failure 502 (attempt + 1)
    | AttemptOutcome.tmout => ReqResult.failure 504 (attempt + 1)

/-- One whole `scheduleRequest` body (after the rate-limit wait). -/
def scheduleRequestModel (out : Nat → AttemptOutcome) : ReqResult :=
  attemptLoop out (maxRetries + 1) 0

/-! ## Tag reader: ID3v1 (parseMp3Id3v1) -/

/-- Node `Buffer.toString('latin1')`: each byte is the Unicode scalar of
the same value. -/
def latin1Decode (bs : List Nat) : JStr := bs.map Char.ofNat

/-- Node `Buffer.toString('ascii')`: the high bit of every byte is
stripped before decoding. -/
def asciiDecode (bs : List Nat) : JStr := bs.map (fun b => Char.ofNat (b % 128))

/-- `replace(/\0+$/g, '')`: drop the trailing run of NUL characters. -/
def dropTrailingNuls (s : JStr) : JStr :=
  (s.reverse.dropWhile (fun c => c.val = 0)).reverse

/-- `decodeId3v1Text`: latin1-decode `length` bytes at `start`, drop
trailing NULs, trim whitespace. -/
def decodeId3v1Text (buf : List Nat) (start length : Nat) : JStr :=
  jsTrim (dropTrailingNuls (latin1Decode ((buf.drop start).take length)))

/-- The record returned by `parseMp3Id3v1`. -/
structure Id3v1Rec where
  album : JStr
  albumArtist : Option JStr
  artist : Option JStr
  year : Option JStr
  title : Option JStr
  deriving Repr, DecidableEq

/-- `parseMp3Id3v1`, as a function of the file's bytes: fail below 128
bytes, read the last 128 bytes, require the (high-bit-stripped) marker
`TAG`, decode the fixed-width latin1 fields, fail on an empty album. -/
def parseMp3Id3v1 (file : List Nat) : Option Id3v1Rec :=
  if file.length < 128 then none
  else
    let tag := file.drop (file.length - 128)
    if asciiDecode (tag.take 3) ≠ "TAG".data then none
    else
      let title := decodeId3v1Text tag 3 30
      let artist := decodeId3v1Text tag 33 30
      let album := decodeId3v1Text tag 63 30
      let year := decodeId3v1Text tag 93 4
      if album = [] then none
      else
        some { album := album
               albumArtist := if artist = [] then none else some artist
               artist := if artist = [] then none else some artist
               year := if year = [] then none else some year
               title := if title = [] then none else some title }

/-! ## Claim C7: metadata-client request gap -/

/-- C7 counterexample. The claim reads the 1-second minimum as separating
the END of a request from the start of the next.  With a single request
lasting 1500 ms (first thunk arriving at time 0), the follower starts the
moment the previous request ends: the end-to-start gap is 0 ms.  `r0`
starts at 1000, ends at 2500; `r1` starts at 2500. -/
theorem C7_counterexample :
    reqStart (fun _ => 1500) 0 1 < reqEnd (fun _ => 1500) 0 0 + 1000 ∧
    reqEnd (fun _ => 1500) 0 0 = 2500 ∧ reqStart (fun _ => 1500) 0 1 = 2500 := by
  refine ⟨?_, ?_, ?_⟩ <;> simp [reqStart, reqEnd]

/-- C7 (amended): the queue of `scheduleRequest` guarantees at least
1000 ms between the STARTS of adjacent requests (`lastRequestAt` is set at
the start of each attempt, so the measured gap is start-to-start, not
end-to-start). -/
theorem C7_start_gap (d : Nat → Nat) (t0 i : Nat) :
    reqStart d t0 i + 1000 ≤ reqStart d t0 (i + 1) := by
  simp only [reqStart]
  omega

/-! ## Claim C8: retry on network error / timeout -/

/-- C8 counterexample. A timeout (`AbortError`) on the very first attempt
is NOT retried although the retry budget (2 retries) is untouched: the
request fails with 504 after exactly one attempt. -/
theorem C8_counterexample :
    scheduleRequestModel (fun _ => AttemptOutcome.tmout) = ReqResult.failure 504 1 ∧
    0 < maxRetries := by
  constructor
  · rfl
  · decide

/-- C8 (amended): a network error whose message matches `/fetch failed/`
is retried whenever attempts remain and fails with 502 once the budget is
exhausted, while a timeout is never retried: it fails immediately with
statusCode 504. -/
theorem C8_retry_spec (out : Nat → AttemptOutcome) (fuel attempt : Nat) :
    (out attempt = AttemptOutcome.netErr true → attempt < maxRetries →
      attemptLoop out (fuel + 1) attempt = attemptLoop out fuel (attempt + 1)) ∧
    (out attempt = AttemptOutcome.netErr true → ¬ attempt < maxRetries →
      attemptLoop out (fuel + 1) attempt = ReqResult.failure 502 (attempt + 1)) ∧
    (out attempt = AttemptOutcome.tmout →
      attemptLoop out (fuel + 1) attempt = ReqResult.failure 504 (attempt + 1)) := by
  refine ⟨?_, ?_, ?_⟩ <;> intro h <;> simp [attemptLoop, h]
  · intro hlt
    simp [hlt]
  · intro hge
    simp [hge]

/-- C8 witness: at attempt 0 with two fetch failures then success, the
loop retries and eventually succeeds after 3 attempts; a timeout at
attempt 0 fails at once. -/
theorem C8_witness :
    attemptLoop (fun _ => AttemptOutcome.netErr true) 3 0 =
      attemptLoop (fun _ => AttemptOutcome.netErr true) 2 1 ∧
    attemptLoop (fun _ => AttemptOutcome.tmout) 3 0 = ReqResult.failure 504 1 := by
  have h1 := (C8_retry_spec (fun _ => AttemptOutcome.netErr true) 2 0).1 rfl (by decide)
  have h2 := (C8_retry_spec (fun _ => AttemptOutcome.tmout) 2 0).2.2 rfl
  exact ⟨h1, h2⟩

/-! ## Claim C9: the ID3v1 tag reader -/

/-- A 128-byte MP3 file whose first three bytes are `TAG` with the high
bit set (0xD4 0xC1 0xC7), with album field `A` at offset 63. -/
def id3MaskedFile : List Nat :=
  [0xD4, 0xC1, 0xC7] ++ List.replicate 60 0 ++ [65] ++ List.replicate 64 0

/-- C9 counterexample. The claim requires the ASCII marker `TAG` at offset
0 of the trailing 128 bytes, but the reader checks the Buffer `'ascii'`
decoding, which strips the high bit of every byte: a file whose marker
bytes are 0xD4 0xC1 0xC7 (not `T`,`A`,`G`) is accepted and parsed. -/
theorem C9_counterexample :
    parseMp3Id3v1 id3MaskedFile =
      some ⟨"A".data, none, none, none, none⟩ ∧
    id3MaskedFile.take 3 ≠ [84, 65, 71] ∧ id3MaskedFile.length = 128 := by
  refine ⟨by decide, by decide, by decide⟩

/-- C9 (amended): the reader fails below 128 bytes; otherwise it depends
only on the last 128 bytes, requires that their first three bytes spell
`TAG` after Buffer `'ascii'` decoding (which strips the high bit), decodes
the Latin-1 fixed-width fields title 3..33, artist 33..63, album 63..93
and year 93..97 (trailing NULs dropped, whitespace trimmed), and returns
none exactly when the decoded album field is empty. -/
theorem C9_id3v1_spec (file : List Nat) :
    (file.length < 128 → parseMp3Id3v1 file = none) ∧
    (128 ≤ file.length →
      parseMp3Id3v1 file = parseMp3Id3v1 (file.drop (file.length - 128))) ∧
    (128 ≤ file.length →
      let tag := file.drop (file.length - 128)
      (asciiDecode (tag.take 3) ≠ "TAG".data → parseMp3Id3v1 file = none) ∧
      (asciiDecode (tag.take 3) = "TAG".data →
        (decodeId3v1Text tag 63 30 = [] → parseMp3Id3v1 file = none) ∧
        (decodeId3v1Text tag 63 30 ≠ [] →
          parseMp3Id3v1 file =
            some { album := decodeId3v1Text tag 63 30
                   albumArtist := if decodeId3v1Text tag 33 30 = [] then none
                                  else some (decodeId3v1Text tag 33 30)
                   artist := if decodeId3v1Text tag 33 30 = [] then none
                             else some (decodeId3v1Text tag 33 30)
                   year := if decodeId3v1Text tag 93 4 = [] then none
                           else some (decodeId3v1Text tag 93 4)
                   title := if decodeId3v1Text tag 3 30 = [] then none
                            else some (decodeId3v1Text tag 3 30) }))) := by
  have hlen : ∀ h : 128 ≤ file.length, (file.drop (file.length - 128)).length = 128 := by
    intro h
    simp [List.length_drop]
    omega
  refine ⟨?_, ?_, ?_⟩
  · intro h
    simp [parseMp3Id3v1, h]
  · intro h
    have h128 := hlen h
    have hnot : ¬ file.length < 128 := by omega
    have hnot2 : ¬ (file.drop (file.length - 128)).length < 128 := by omega
    have hdd : (file.drop (file.length - 128)).drop
        ((file.drop (file.length - 128)).length - 128) = file.drop (file.length - 128) := by
      rw [h128]
      simp
    simp only [parseMp3Id3v1, hnot, hnot2, if_false, hdd]
  · intro h
    have hnot : ¬ file.length < 128 := by omega
    refine ⟨?_, ?_⟩
    · intro hm
      simp only [parseMp3Id3v1, hnot, if_false]
      simp [hm]
    · intro hm
      refine ⟨?_, ?_⟩
      · intro ha
        simp only [parseMp3Id3v1, hnot, if_false]
        simp [hm, ha]
      · intro ha
        simp only [parseMp3Id3v1, hnot, if_false]
        simp [hm, ha]

/-- C9 witness: a 128-byte file with a genuine `TAG` marker and album
field `B` parses to the stated field decodes; a 100-byte file fails. -/
theorem C9_witness :
    parseMp3Id3v1 ([84, 65, 71] ++ List.replicate 60 0 ++ [66] ++ List.replicate 64 0) =
      some { album := decodeId3v1Text
               (([84, 65, 71] ++ List.replicate 60 0 ++ [66] ++ List.replicate 64 0).drop
                 (([84, 65, 71] ++ List.replicate 60 0 ++ [66] ++ List.replicate 64 0).length - 128)) 63 30
             albumArtist := none, artist := none, year := none, title := none } ∧
    parseMp3Id3v1 (List.replicate 100 0) = none := by
  constructor
  · have h := ((C9_id3v1_spec
      ([84, 65, 71] ++ List.replicate 60 0 ++ [66] ++ List.replicate 64 0)).2.2
      (by decide)).2 (by decide)
    have h2 := (h.2 (by decide))
    rw [h2]
    decide
  · exact (C9_id3v1_spec (List.replicate 100 0)).1 (by decide)

/-! ## Claim C10: matched/unmatched owned albums partition -/

/-- The `unmatchedOwnedAlbums` predicate is the pointwise negation of the
`matchedOwnedAlbums` predicate. -/
theorem ownedUnmatchedPred_eq_not (inp : SummaryInput) (o : OwnedNorm) :
    ownedUnmatchedPred inp o = ! ownedMatchedPred inp o := by
  cases hA : (overrideOwnedIds inp).contains o.id <;>
  cases hB : (expectedNormalizedTitles inp).contains o.normalizedTitle <;>
  cases hC : inp.expectedAlbums.any
      (fun e => isStrongTitleAliasMatch o.normalizedTitle e.normalizedTitle) <;>
  simp [ownedMatchedPred, ownedUnmatchedPred, hA, hB, hC]

/-- C10: `matchedOwnedAlbums` and `unmatchedOwnedAlbums` partition the
owned albums: they are disjoint, every owned album (with its normalized
title) lands in one of them, and `matchedOwnedCount` plus the length of
`unmatchedOwnedAlbums` equals `ownedCount`. -/
theorem C10_owned_partition (inp : SummaryInput) :
    (∀ a, a ∈ (computeSummary inp).matchedOwnedAlbums →
      a ∉ (computeSummary inp).unmatchedOwnedAlbums) ∧
    (∀ a, a ∈ ownedWithNormalized inp →
      a ∈ (computeSummary inp).matchedOwnedAlbums ∨
      a ∈ (computeSummary inp).unmatchedOwnedAlbums) ∧
    (computeSummary inp).matchedOwnedCount +
      (computeSummary inp).unmatchedOwnedAlbums.length =
      (computeSummary inp).ownedCount := by
  have hfields :
      (computeSummary inp).matchedOwnedAlbums =
        (ownedWithNormalized inp).filter (ownedMatchedPred inp) ∧
      (computeSummary inp).unmatchedOwnedAlbums =
        (ownedWithNormalized inp).filter (ownedUnmatchedPred inp) ∧
      (computeSummary inp).matchedOwnedCount =
        ((ownedWithNormalized inp).filter (ownedMatchedPred inp)).length ∧
      (computeSummary inp).ownedCount = inp.ownedAlbums.length := by
    refine ⟨rfl, rfl, rfl, rfl⟩
  obtain ⟨h1, h2, h3, h4⟩ := hfields
  refine ⟨?_, ?_, ?_⟩
  · intro a ha hb
    rw [h1] at ha
    rw [h2] at hb
    have pa := (List.mem_filter.mp ha).2
    have qa := (List.mem_filter.mp hb).2
    rw [ownedUnmatchedPred_eq_not] at qa
    rw [pa] at qa
    simp at qa
  · intro a ha
    cases hp : ownedMatchedPred inp a
    · right
      rw [h2]
      refine List.mem_filter.mpr ⟨ha, ?_⟩
      rw [ownedUnmatchedPred_eq_not, hp]
      rfl
    · left
      rw [h1]
      exact List.mem_filter.mpr ⟨ha, hp⟩
  · rw [h3, h2, h4]
    have hcongr : (ownedWithNormalized inp).filter (ownedUnmatchedPred inp) =
        (ownedWithNormalized inp).filter (fun o => ! ownedMatchedPred inp o) := by
      apply List.filter_congr
      intro o _
      exact ownedUnmatchedPred_eq_not inp o
    rw [hcongr]
    have hlen : (ownedWithNormalized inp).length = inp.ownedAlbums.length := by
      simp [ownedWithNormalized]
    rw [← hlen]
    exact (List.length_eq_length_filter_add (l := ownedWithNormalized inp)
      (ownedMatchedPred inp)).symm

/-- C10 witness: a concrete artist with one matching and one stray owned
album; the partition theorem applies and both membership conjuncts are
discharged at concrete values. -/
theorem C10_witness :
    (⟨2, "Other".data, "other".data⟩ : OwnedNorm) ∈
      (computeSummary
        { expectedAlbums := [⟨1, "Waiting".data, some 1998, some "Album".data,
            some "Album".data, [], "waiting".data⟩]
          ownedAlbums := [⟨1, "Waiting (1998)".data⟩, ⟨2, "Other".data⟩]
          overrides := [], ignoredIds := [],
          settings := ⟨false, false⟩ }).matchedOwnedAlbums ∨
    (⟨2, "Other".data, "other".data⟩ : OwnedNorm) ∈
      (computeSummary
        { expectedAlbums := [⟨1, "Waiting".data, some 1998, some "Album".data,
            some "Album".data, [], "waiting".data⟩]
          ownedAlbums := [⟨1, "Waiting (1998)".data⟩, ⟨2, "Other".data⟩]
          overrides := [], ignoredIds := [],
          settings := ⟨false, false⟩ }).unmatchedOwnedAlbums := by
  exact (C10_owned_partition _).2.1 _ (by decide)

/-! ## Claim C4: deduplication key and duplicate skips -/

/-- A `deduped:`-prefixed raw reason is canonicalized to `duplicate` by
`normalizeSkipReason`, whatever the key. -/
theorem normalizeSkipReason_deduped (k : JStr) :
    normalizeSkipReason ("deduped:".data ++ k) = "duplicate".data := by
  have hcons : "deduped:".data ++ k = 'd' :: ("eduped:".data ++ k) := rfl
  have hne : ("deduped:".data ++ k) ≠ [] := by
    rw [hcons]
    exact List.cons_ne_nil _ _
  have hmap : ("deduped:".data ++ k).map jsToLower =
      'd' :: 'e' :: 'd' :: 'u' :: 'p' :: 'e' :: 'd' :: ':' :: (k.map jsToLower) := rfl
  unfold normalizeSkipReason
  rw [if_neg hne, hmap]
  simp [List.isPrefixOf]

/-- A concrete candidate used by the hardlink scenario: a valid mp3 with
album tag `W`, artist tag `A`, inode key `1:7`. -/
def hardlinkCand (p : JStr) : Candidate :=
  ⟨p, "mp3".data, 5, 100, some "1:7".data,
   some ⟨some "W".data, some "A".data, some "A".data, none⟩, false⟩

/-- The hardlink environment: one artist directory holding a file and its
hardlink (same inode key, different paths). -/
def hardlinkEnv : ScanEnv :=
  ⟨"/lib".data,
   [⟨"A".data, [hardlinkCand "/lib/A/x.mp3".data, hardlinkCand "/lib/A/y.mp3".data], []⟩],
   none, none⟩

/-- A fresh database. -/
def emptyScanDB : ScanDB :=
  ⟨[], [], [], ⟨"idle".data, none, none, 0, 0, 0, 0, []⟩, [], none⟩

/-- C4: the dedupe key of an admitted candidate is `inode:{inodeKey}` when
the inode key is present, else `fallback:{size}:{mtimeRounded}:{shortHash
(normalizedPath)}`; a candidate passing the tag filters whose key was
already seen is skipped with canonical reason `duplicate`; and the
hardlink scenario yields exactly one non-deleted track row and a
`duplicate` count of 1 in the skipped-reasons breakdown. -/
theorem C4_dedupe_spec :
    (∀ (m : Metadata) (k : JStr), m.inodeKey = some k → k ≠ [] →
      computeDedupeKey m = "inode:".data ++ k) ∧
    (∀ m : Metadata, m.inodeKey = none →
      computeDedupeKey m = "fallback:".data ++ natToJStr m.size ++ ":".data ++
        intToJStr (jsRound m.mtime) ++ ":".data ++
        shortHash (normalizePathForHash m.path)) ∧
    (∀ k : JStr, normalizeSkipReason ("deduped:".data ++ k) = "duplicate".data) ∧
    (∀ (env : ScanEnv) (artistName artistPath : JStr) (st : ScanSt)
       (groups : List (JStr × AlbumGroup)) (skipped : List (JStr × JStr))
       (c : Candidate) (rest : List Candidate),
      cancelFlag env st.cp = false →
      c.throws = false →
      strTruthy (c.tagInfo.bind (·.album)) = true →
      (strTruthy (c.tagInfo.bind (·.albumArtist)) = true ∨
       strTruthy (c.tagInfo.bind (·.artist)) = true) →
      ¬ (normalizeCompareValue artistName ≠ [] ∧
         normalizeCompareValue (buildMetadata artistName c).albumArtistName ≠ [] ∧
         normalizeCompareValue artistName ≠
           normalizeCompareValue (buildMetadata artistName c).albumArtistName) →
      st.seenKeys.contains (computeDedupeKey (buildMetadata artistName c)) = true →
      trackLoop env artistName artistPath st groups skipped (c :: rest) =
        trackLoop env artistName artistPath { st with cp := st.cp + 1 } groups
          (skipped ++ [(c.path, "duplicate".data)]) rest) ∧
    (((runScan emptyScanDB hardlinkEnv 10 11).tracks.filter (fun t => ¬ t.deleted)).length = 1 ∧
     lookupReason (runScan emptyScanDB hardlinkEnv 10 11).scanState.skippedReasons
       "duplicate".data = some 1) := by
  refine ⟨?_, ?_, normalizeSkipReason_deduped, ?_, by decide, by decide⟩
  · intro m k hk hne
    simp [computeDedupeKey, hk, strTruthy, hne]
  · intro m hk
    simp [computeDedupeKey, hk, strTruthy]
  · intro env artistName artistPath st groups skipped c rest hcp hthrow halbum hartist hmm hseen
    have hskip : admissionSkip artistName st.seenKeys c =
        some ("deduped:".data ++ computeDedupeKey (buildMetadata artistName c)) := by
      simp only [admissionSkip]
      rw [hthrow]
      rw [if_neg Bool.false_ne_true]
      rw [if_neg (by simp [halbum])]
      rw [if_neg (by rcases hartist with h | h <;> simp [h])]
      rw [if_neg hmm]
      rw [if_pos hseen]
    rw [trackLoop]
    rw [show cancelRead env st = (false, { st with cp := st.cp + 1 }) from by
      simp [cancelRead, hcp]]
    have hrw : normalizeSkipReason
        ('d' :: 'e' :: 'd' :: 'u' :: 'p' :: 'e' :: 'd' :: ':' ::
          computeDedupeKey (buildMetadata artistName c)) = "duplicate".data :=
      normalizeSkipReason_deduped _
    simp [hskip, hrw]

/-- C4 witness: the key equations at concrete metadata values. -/
theorem C4_witness :
    computeDedupeKey (buildMetadata "A".data (hardlinkCand "/lib/A/x.mp3".data)) =
      "inode:".data ++ "1:7".data ∧
    computeDedupeKey ⟨"/lib/A/x.mp3".data, "mp3".data, 5, 100, none, none, [], []⟩ =
      "fallback:".data ++ natToJStr 100 ++ ":".data ++ intToJStr (jsRound 5) ++ ":".data ++
        shortHash (normalizePathForHash "/lib/A/x.mp3".data) := by
  constructor
  · exact C4_dedupe_spec.1 _ _ rfl (by decide)
  · exact C4_dedupe_spec.2.1 _ rfl

/-! ## Claim C5: cancellation and the final sweep -/

/-- A database carrying rows not seen since timestamp 0. -/
def staleScanDB : ScanDB :=
  ⟨[⟨1, "Old".data, 0, false⟩],
   [⟨1, 1, "OldAlbum".data, "/lib/Old/.crate/x".data, 0, none, [], 1, false⟩],
   [⟨"/lib/Old/t.mp3".data, 1, "mp3".data, 0, 0, false⟩],
   ⟨"idle".data, none, none, 0, 0, 0, 0, []⟩, [], none⟩

/-- A full-library scan environment cancelled before the first checkpoint. -/
def cancelledEnv : ScanEnv :=
  ⟨"/lib".data, [⟨"A".data, [], []⟩], some 0, none⟩

/-- C5 counterexample. Cancellation is requested before any artist is
processed (well before the final transaction), yet the finalize
transaction still soft-deletes every row whose `lastSeen` predates the
scan start: the stale artist, album and track rows end with `deleted = 1`
while the scan finalizes with `status = cancelled`.  The claim asserts
those rows keep `deleted = 0`. -/
theorem C5_counterexample :
    (runScan staleScanDB cancelledEnv 10 11).scanState.status = "cancelled".data ∧
    (runScan staleScanDB cancelledEnv 10 11).artists = [⟨1, "Old".data, 0, true⟩] ∧
    ((runScan staleScanDB cancelledEnv 10 11).albums.map (·.deleted)) = [true] ∧
    ((runScan staleScanDB cancelledEnv 10 11).tracks.map (·.deleted)) = [true] := by
  refine ⟨by decide, by decide, by decide, by decide⟩

/-- C5 (amended): a cancelled full-library scan does finalize with
`status = cancelled` and (for a cancellation before the first artist)
preserves the zeroed counters, but the soft-delete sweep is NOT skipped:
after any full-library run, every track, album and artist row whose
`lastSeen` predates the scan start is soft-deleted, cancelled or not. -/
theorem C5_cancel_sweep (db0 : ScanDB) (env : ScanEnv) (seenAt finishedAt : Nat)
    (hfull : env.scanArtistId = none) :
    (∀ t, t ∈ (runScan db0 env seenAt finishedAt).tracks →
      t.lastSeen < seenAt → t.deleted = true) ∧
    (∀ a, a ∈ (runScan db0 env seenAt finishedAt).albums →
      a.lastSeen < seenAt → a.deleted = true) ∧
    (∀ a, a ∈ (runScan db0 env seenAt finishedAt).artists →
      a.lastSeen < seenAt → a.deleted = true) ∧
    (env.cancelAfter = some 0 →
      (runScan db0 env seenAt finishedAt).scanState.status = "cancelled".data ∧
      (runScan db0 env seenAt finishedAt).scanState.scannedFiles = 0 ∧
      (runScan db0 env seenAt finishedAt).scanState.scannedAlbums = 0 ∧
      (runScan db0 env seenAt finishedAt).scanState.scannedArtists = 0 ∧
      (runScan db0 env seenAt finishedAt).scanState.skippedFiles = 0) := by
  have hdb : (runScan db0 env seenAt finishedAt).tracks =
      (sweepAll (artistLoop env seenAt
        { db := { db0 with
            scanSkipped := db0.scanSkipped.filter (fun r => ¬ r.1 < seenAt)
            scanState := { status := "running".data, startedAt := some seenAt,
                           finishedAt := none, scannedFiles := 0, scannedAlbums := 0,
                           scannedArtists := 0, skippedFiles := 0, skippedReasons := [] } }
          scannedFiles := 0, scannedAlbums := 0, skippedFiles := 0,
          skippedReasons := [], artistsSeen := [], seenKeys := [], cp := 0 }
        env.dirs).db seenAt).tracks := by
    simp only [runScan, hfull, if_pos]
  refine ⟨?_, ?_, ?_, ?_⟩
  · intro t ht hlt
    rw [hdb] at ht
    simp only [sweepAll, List.mem_map] at ht
    obtain ⟨r, _, hr⟩ := ht
    by_cases h : r.lastSeen < seenAt
    · rw [if_pos h] at hr
      rw [← hr]
    · rw [if_neg h] at hr
      rw [← hr] at hlt
      exact absurd hlt h
  · intro a ha hlt
    have hdb2 : (runScan db0 env seenAt finishedAt).albums =
        (sweepAll (artistLoop env seenAt
          { db := { db0 with
              scanSkipped := db0.scanSkipped.filter (fun r => ¬ r.1 < seenAt)
              scanState := { status := "running".data, startedAt := some seenAt,
                             finishedAt := none, scannedFiles := 0, scannedAlbums := 0,
                             scannedArtists := 0, skippedFiles := 0, skippedReasons := [] } }
            scannedFiles := 0, scannedAlbums := 0, skippedFiles := 0,
            skippedReasons := [], artistsSeen := [], seenKeys := [], cp := 0 }
          env.dirs).db seenAt).albums := by
      simp only [runScan, hfull, if_pos]
    rw [hdb2] at ha
    simp only [sweepAll, List.mem_map] at ha
    obtain ⟨r, _, hr⟩ := ha
    by_cases h : r.lastSeen < seenAt
    · rw [if_pos h] at hr
      rw [← hr]
    · rw [if_neg h] at hr
      rw [← hr] at hlt
      exact absurd hlt h
  · intro a ha hlt
    have hdb3 : (runScan db0 env seenAt finishedAt).artists =
        (sweepAll (artistLoop env seenAt
          { db := { db0 with
              scanSkipped := db0.scanSkipped.filter (fun r => ¬ r.1 < seenAt)
              scanState := { status := "running".data, startedAt := some seenAt,
                             finishedAt := none, scannedFiles := 0, scannedAlbums := 0,
                             scannedArtists := 0, skippedFiles := 0, skippedReasons := [] } }
            scannedFiles := 0, scannedAlbums := 0, skippedFiles := 0,
            skippedReasons := [], artistsSeen := [], seenKeys := [], cp := 0 }
          env.dirs).db seenAt).artists := by
      simp only [runScan, hfull, if_pos]
    rw [hdb3] at ha
    simp only [sweepAll, List.mem_map] at ha
    obtain ⟨r, _, hr⟩ := ha
    by_cases h : r.lastSeen < seenAt
    · rw [if_pos h] at hr
      rw [← hr]
    · rw [if_neg h] at hr
      rw [← hr] at hlt
      exact absurd hlt h
  · intro hcancel
    cases hd : env.dirs with
    | nil =>
      refine ⟨?_, ?_, ?_, ?_, ?_⟩ <;>
        simp [runScan, hd, artistLoop, cancelFlag, hcancel]
    | cons d rest =>
      refine ⟨?_, ?_, ?_, ?_, ?_⟩ <;>
        simp [runScan, hd, artistLoop, cancelRead, cancelFlag, hcancel]

/-- C5 witness: the sweep conjunct applied at the concrete cancelled
scenario: the stale track row (lastSeen 0 < scan start 10) of the final
database is soft-deleted. -/
theorem C5_witness :
    (⟨"/lib/Old/t.mp3".data, 1, "mp3".data, 0, 0, true⟩ : TrackRow).deleted = true ∧
    ((runScan staleScanDB cancelledEnv 10 11).scanState.status = "cancelled".data ∧
     (runScan staleScanDB cancelledEnv 10 11).scanState.scannedFiles = 0 ∧
     (runScan staleScanDB cancelledEnv 10 11).scanState.scannedAlbums = 0 ∧
     (runScan staleScanDB cancelledEnv 10 11).scanState.scannedArtists = 0 ∧
     (runScan staleScanDB cancelledEnv 10 11).scanState.skippedFiles = 0) := by
  constructor
  · exact (C5_cancel_sweep staleScanDB cancelledEnv 10 11 rfl).1 _ (by decide) (by decide)
  · exact (C5_cancel_sweep staleScanDB cancelledEnv 10 11 rfl).2.2.2 rfl

/-! ## Claim C6: sync transaction upsert-then-prune -/

/-- Select the release-group id of a row belonging to the given expected
artist (the unique-index component of the upsert). -/
def gidSel (eaId : Int) (r : ExpAlbumRow) : Option JStr :=
  if r.expectedArtistId = eaId then r.mbReleaseGroupId else none

/-- The release-group ids present for an artist in the table. -/
def gidsOf (eaId : Int) (T : List ExpAlbumRow) : List JStr := T.filterMap (gidSel eaId)

/-- The upsert-conflict predicate for one release-group id. -/
def rowMatches (eaId : Int) (g : JStr) (r : ExpAlbumRow) : Bool :=
  r.expectedArtistId = eaId ∧ r.mbReleaseGroupId = some g

/-- A row refreshed by the running sync. -/
def rowIsNow (eaId : Int) (now : Nat) (r : ExpAlbumRow) : Bool :=
  r.expectedArtistId = eaId ∧ r.updatedAt = now

theorem mem_gidsOf {eaId : Int} {T : List ExpAlbumRow} {g : JStr} :
    g ∈ gidsOf eaId T ↔ ∃ r ∈ T, r.expectedArtistId = eaId ∧ r.mbReleaseGroupId = some g := by
  simp only [gidsOf, List.mem_filterMap, gidSel]
  constructor
  · rintro ⟨r, hr, hsel⟩
    by_cases h : r.expectedArtistId = eaId
    · rw [if_pos h] at hsel
      exact ⟨r, hr, h, hsel⟩
    · rw [if_neg h] at hsel
      exact absurd hsel (by simp)
  · rintro ⟨r, hr, h, hg⟩
    exact ⟨r, hr, by rw [if_pos h, hg]⟩

theorem countP_matches_le_one (eaId : Int) (g : JStr) (T : List ExpAlbumRow)
    (hnd : (gidsOf eaId T).Nodup) : T.countP (rowMatches eaId g) ≤ 1 := by
  induction T with
  | nil => simp
  | cons r T ih =>
    by_cases hm : rowMatches eaId g r = true
    · have hga : gidSel eaId r = some g := by
        have h1 : r.expectedArtistId = eaId ∧ r.mbReleaseGroupId = some g := by
          simpa [rowMatches] using hm
        simp [gidSel, h1.1, h1.2]
      have hcons : gidsOf eaId (r :: T) = g :: gidsOf eaId T := by
        simp [gidsOf, List.filterMap_cons, hga]
      rw [hcons] at hnd
      have hnotin : g ∉ gidsOf eaId T := (List.nodup_cons.mp hnd).1
      have hzero : T.countP (rowMatches eaId g) = 0 := by
        rw [List.countP_eq_zero]
        intro r2 hr2 hm2
        have h2 : r2.expectedArtistId = eaId ∧ r2.mbReleaseGroupId = some g := by
          simpa [rowMatches] using hm2
        exact hnotin (mem_gidsOf.mpr ⟨r2, hr2, h2⟩)
      simp [List.countP_cons, hm, hzero]
    · have hnd2 : (gidsOf eaId T).Nodup := by
        simp only [gidsOf, List.filterMap_cons] at hnd
        cases hsel : gidSel eaId r with
        | none =>
          rw [hsel] at hnd
          exact hnd
        | some g2 =>
          rw [hsel] at hnd
          exact (List.nodup_cons.mp hnd).2
      simp [List.countP_cons, hm, ih hnd2]

/-- Pointwise split of a disjunctive count. -/
theorem countP_or_split {α : Type} (p q : α → Bool) (l : List α) :
    l.countP (fun r => p r || q r) =
      l.countP q + l.countP (fun r => p r && ! q r) := by
  induction l with
  | nil => simp
  | cons x l ih =>
    by_cases hp : p x = true <;> by_cases hq : q x = true <;>
      simp [List.countP_cons, hp, hq, ih] <;> omega

/-- Invariant lemma for the upsert fold of the sync transaction: each
fetched release with a fresh or stale `(expectedArtistId, releaseGroupId)`
pair contributes exactly one row stamped `updatedAt = now`, and every row
of the artist stays stamped at most `now`. -/
theorem syncFold_count (eaId : Int) (now : Nat) :
    ∀ (albums : List FetchedAlbum) (T : List ExpAlbumRow),
    (∀ r ∈ T, r.expectedArtistId = eaId → r.updatedAt ≤ now) →
    (gidsOf eaId T).Nodup →
    (∀ a ∈ albums, a.mbReleaseGroupId ≠ none) →
    (albums.filterMap (·.mbReleaseGroupId)).Nodup →
    (∀ a ∈ albums, ∀ r ∈ T, r.expectedArtistId = eaId → r.updatedAt = now →
      r.mbReleaseGroupId ≠ a.mbReleaseGroupId) →
    ((albums.foldl (syncStep eaId now) T).countP (rowIsNow eaId now) =
      T.countP (rowIsNow eaId now) + albums.length) ∧
    (∀ r ∈ albums.foldl (syncStep eaId now) T, r.expectedArtistId = eaId →
      r.updatedAt ≤ now)
  | [], T => by
    intro h1 _ _ _ _
    exact ⟨by simp, by simpa using h1⟩
  | a :: rest, T => by
    intro h1 h2 h3 h4 h5
    obtain ⟨g, hg⟩ : ∃ g, a.mbReleaseGroupId = some g := by
      cases hga : a.mbReleaseGroupId with
      | none => exact absurd hga (h3 a (by simp))
      | some g => exact ⟨g, rfl⟩
    have hcons4 : (a :: rest).filterMap (·.mbReleaseGroupId) =
        g :: rest.filterMap (·.mbReleaseGroupId) := by
      simp [List.filterMap_cons, hg]
    have hgrest : g ∉ rest.filterMap (·.mbReleaseGroupId) := by
      rw [hcons4] at h4
      exact (List.nodup_cons.mp h4).1
    have h3r : ∀ b ∈ rest, b.mbReleaseGroupId ≠ none :=
      fun b hb => h3 b (List.mem_cons_of_mem _ hb)
    have h4r : (rest.filterMap (·.mbReleaseGroupId)).Nodup := by
      rw [hcons4] at h4
      exact (List.nodup_cons.mp h4).2
    have hbneq : ∀ b ∈ rest, b.mbReleaseGroupId ≠ some g := by
      intro b hb heq
      exact hgrest (List.mem_filterMap.mpr ⟨b, hb, heq⟩)
    have hfold : (a :: rest).foldl (syncStep eaId now) T =
        rest.foldl (syncStep eaId now) (syncStep eaId now T a) := rfl
    by_cases hmatch : T.any (rowMatches eaId g) = true
    · -- conflict: the existing row is updated in place
      have hmatch2 : (T.any fun r =>
          decide (r.expectedArtistId = eaId ∧ r.mbReleaseGroupId = some g)) = true := hmatch
      have hTm : syncStep eaId now T a =
          T.map (fun r =>
            if r.expectedArtistId = eaId ∧ r.mbReleaseGroupId = some g then
              { r with title := a.title, updatedAt := now }
            else r) := by
        simp only [syncStep, hg]
        rw [if_pos hmatch2]
      have hA : (syncStep eaId now T a).countP (rowIsNow eaId now) =
          T.countP (rowIsNow eaId now) + 1 := by
        rw [hTm, List.countP_map]
        have hstep1 : T.countP ((rowIsNow eaId now) ∘ (fun r =>
            if r.expectedArtistId = eaId ∧ r.mbReleaseGroupId = some g then
              { r with title := a.title, updatedAt := now }
            else r)) =
            T.countP (fun r => rowMatches eaId g r || rowIsNow eaId now r) := by
          apply List.countP_congr
          intro r _
          by_cases hm : r.expectedArtistId = eaId ∧ r.mbReleaseGroupId = some g
          · simp [Function.comp, if_pos hm, rowIsNow, rowMatches, hm.1, hm.2]
          · simp [Function.comp, if_neg hm, rowIsNow, rowMatches, hm]
        rw [hstep1, countP_or_split]
        have hsub : T.countP (fun r => rowMatches eaId g r && ! rowIsNow eaId now r) =
            T.countP (rowMatches eaId g) := by
          apply List.countP_congr
          intro r hr
          by_cases hm : rowMatches eaId g r = true
          · have hprop : r.expectedArtistId = eaId ∧ r.mbReleaseGroupId = some g := by
              simpa [rowMatches] using hm
            have hnotnow : rowIsNow eaId now r = false := by
              cases hx : rowIsNow eaId now r with
              | false => rfl
              | true =>
                exfalso
                have hprop2 : r.expectedArtistId = eaId ∧ r.updatedAt = now := by
                  simpa [rowIsNow] using hx
                exact (h5 a (by simp) r hr hprop2.1 hprop2.2) (by rw [hprop.2, hg])
            simp [hm, hnotnow]
          · have hmf : rowMatches eaId g r = false := by
              cases hx : rowMatches eaId g r with
              | false => rfl
              | true => exact absurd hx hm
            simp [hmf]
        rw [hsub]
        have hone : T.countP (rowMatches eaId g) = 1 := by
          have hle := countP_matches_le_one eaId g T h2
          have hpos : 0 < T.countP (rowMatches eaId g) := by
            rw [List.countP_pos_iff]
            obtain ⟨r, hr, hprop⟩ := List.any_eq_true.mp hmatch
            exact ⟨r, hr, hprop⟩
          omega
        omega
      have hB : ∀ r ∈ syncStep eaId now T a, r.expectedArtistId = eaId →
          r.updatedAt ≤ now := by
        rw [hTm]
        intro r' hr' hea
        obtain ⟨r, hr, hre⟩ := List.mem_map.mp hr'
        by_cases hm : r.expectedArtistId = eaId ∧ r.mbReleaseGroupId = some g
        · rw [if_pos hm] at hre
          rw [← hre]
        · rw [if_neg hm] at hre
          rw [← hre] at hea
          rw [← hre]
          exact h1 r hr hea
      have hC : gidsOf eaId (syncStep eaId now T a) = gidsOf eaId T := by
        rw [hTm]
        unfold gidsOf
        rw [List.filterMap_map]
        apply List.filterMap_congr
        intro r _
        by_cases hm : r.expectedArtistId = eaId ∧ r.mbReleaseGroupId = some g
        · simp [Function.comp, if_pos hm, gidSel, hm.1, hm.2]
        · simp [Function.comp, if_neg hm]
      have hD : ∀ b ∈ rest, ∀ r' ∈ syncStep eaId now T a, r'.expectedArtistId = eaId →
          r'.updatedAt = now → r'.mbReleaseGroupId ≠ b.mbReleaseGroupId := by
        rw [hTm]
        intro b hb r' hr' hea hnow
        obtain ⟨r, hr, hre⟩ := List.mem_map.mp hr'
        by_cases hm : r.expectedArtistId = eaId ∧ r.mbReleaseGroupId = some g
        · rw [if_pos hm] at hre
          rw [← hre]
          intro heq
          exact hbneq b hb (by rw [← heq, hm.2])
        · rw [if_neg hm] at hre
          rw [← hre]
          rw [← hre] at hea hnow
          exact h5 b (List.mem_cons_of_mem _ hb) r hr hea hnow
      have hnd' : (gidsOf eaId (syncStep eaId now T a)).Nodup := by
        rw [hC]
        exact h2
      have ih := syncFold_count eaId now rest (syncStep eaId now T a) hB hnd' h3r h4r hD
      rw [hfold]
      refine ⟨?_, ih.2⟩
      rw [ih.1, hA]
      simp
      omega
    · -- no conflict: plain insert of a fresh row
      have hmatch2 : ¬ (T.any fun r =>
          decide (r.expectedArtistId = eaId ∧ r.mbReleaseGroupId = some g)) = true := hmatch
      have hTm : syncStep eaId now T a = T ++ [⟨eaId, some g, a.title, now⟩] := by
        simp only [syncStep, hg]
        rw [if_neg hmatch2]
      have hnotin : g ∉ gidsOf eaId T := by
        intro hgin
        obtain ⟨r, hr, hprop⟩ := mem_gidsOf.mp hgin
        exact hmatch (List.any_eq_true.mpr ⟨r, hr, by simp [rowMatches, hprop.1, hprop.2]⟩)
      have hA : (syncStep eaId now T a).countP (rowIsNow eaId now) =
          T.countP (rowIsNow eaId now) + 1 := by
        rw [hTm, List.countP_append]
        simp [rowIsNow]
      have hB : ∀ r ∈ syncStep eaId now T a, r.expectedArtistId = eaId →
          r.updatedAt ≤ now := by
        rw [hTm]
        intro r' hr' hea
        rcases List.mem_append.mp hr' with h | h
        · exact h1 r' h hea
        · simp at h
          rw [h]
      have hC : gidsOf eaId (syncStep eaId now T a) = gidsOf eaId T ++ [g] := by
        rw [hTm]
        unfold gidsOf
        rw [List.filterMap_append]
        simp [gidSel]
      have hnd' : (gidsOf eaId (syncStep eaId now T a)).Nodup := by
        rw [hC]
        rw [List.nodup_append]
        refine ⟨h2, List.nodup_singleton g, ?_⟩
        intro x hx hx2
        simp at hx2
        rw [hx2] at hx
        exact hnotin hx
      have hD : ∀ b ∈ rest, ∀ r' ∈ syncStep eaId now T a, r'.expectedArtistId = eaId →
          r'.updatedAt = now → r'.mbReleaseGroupId ≠ b.mbReleaseGroupId := by
        rw [hTm]
        intro b hb r' hr' hea hnow
        rcases List.mem_append.mp hr' with h | h
        · exact h5 b (List.mem_cons_of_mem _ hb) r' h hea hnow
        · simp at h
          rw [h]
          intro heq
          exact hbneq b hb (by rw [← heq])
      have ih := syncFold_count eaId now rest (syncStep eaId now T a) hB hnd' h3r h4r hD
      rw [hfold]
      refine ⟨?_, ih.2⟩
      rw [ih.1, hA]
      simp
      omega

/-- C6: the sync transaction upserts each fetched release by
`(expectedArtistId, mb_release_group_id)` (plain insert when absent) and
then deletes the artist's rows with `updatedAt < now`: when every
previously stored row of the artist predates this sync, and the fetched
releases carry pairwise-distinct release-group ids, the artist ends with
exactly one row per fetched release, all stamped `updatedAt = now` — in
particular a second sync returning 4 of 5 previously synced release-groups
leaves exactly 4 rows, all at the second sync's timestamp. -/
theorem C6_sync_prune (eaId : Int) (now : Nat) (albums : List FetchedAlbum)
    (T : List ExpAlbumRow)
    (h1 : ∀ r ∈ T, r.expectedArtistId = eaId → r.updatedAt < now)
    (h2 : (gidsOf eaId T).Nodup)
    (h3 : ∀ a ∈ albums, a.mbReleaseGroupId ≠ none)
    (h4 : (albums.filterMap (·.mbReleaseGroupId)).Nodup) :
    ((syncExpectedTx eaId now albums T).filter
      (fun r => r.expectedArtistId = eaId)).length = albums.length ∧
    (∀ r ∈ syncExpectedTx eaId now albums T, r.expectedArtistId = eaId →
      r.updatedAt = now) := by
  have h1le : ∀ r ∈ T, r.expectedArtistId = eaId → r.updatedAt ≤ now :=
    fun r hr he => Nat.le_of_lt (h1 r hr he)
  have h5init : ∀ a ∈ albums, ∀ r ∈ T, r.expectedArtistId = eaId →
      r.updatedAt = now → r.mbReleaseGroupId ≠ a.mbReleaseGroupId := by
    intro a _ r hr he hnow
    have := h1 r hr he
    omega
  have hfold := syncFold_count eaId now albums T h1le h2 h3 h4 h5init
  have hzero : T.countP (rowIsNow eaId now) = 0 := by
    rw [List.countP_eq_zero]
    intro r hr hcon
    have hprop : r.expectedArtistId = eaId ∧ r.updatedAt = now := by
      simpa [rowIsNow] using hcon
    have := h1 r hr hprop.1
    omega
  constructor
  · rw [← List.countP_eq_length_filter]
    unfold syncExpectedTx
    rw [List.countP_filter]
    have hcg : (albums.foldl (syncStep eaId now) T).countP
        (fun r => decide (r.expectedArtistId = eaId) &&
          decide (¬ (r.expectedArtistId = eaId ∧ r.updatedAt < now))) =
        (albums.foldl (syncStep eaId now) T).countP (rowIsNow eaId now) := by
      apply List.countP_congr
      intro r hr
      by_cases he : r.expectedArtistId = eaId
      · have hle := hfold.2 r hr he
        by_cases hn : r.updatedAt = now
        · simp [he, hn, rowIsNow]
        · have : r.updatedAt < now := by omega
          simp [he, hn, rowIsNow, this]
      · simp [he, rowIsNow]
    rw [hcg, hfold.1, hzero]
    omega
  · intro r hr he
    unfold syncExpectedTx at hr
    have hm := List.mem_filter.mp hr
    have hkeep := hm.2
    have hle := hfold.2 r hm.1 he
    simp only [decide_eq_true_eq] at hkeep
    have : ¬ r.updatedAt < now := fun hlt => hkeep ⟨he, hlt⟩
    omega

/-- Five rows left by a first sync at timestamp 1 for expected artist 7. -/
def firstSyncRows : List ExpAlbumRow :=
  [⟨7, some "g1".data, "A1".data, 1⟩, ⟨7, some "g2".data, "A2".data, 1⟩,
   ⟨7, some "g3".data, "A3".data, 1⟩, ⟨7, some "g4".data, "A4".data, 1⟩,
   ⟨7, some "g5".data, "A5".data, 1⟩]

/-- The second sync returns 4 of the 5 release-groups. -/
def secondSyncAlbums : List FetchedAlbum :=
  [⟨some "g1".data, "A1".data⟩, ⟨some "g2".data, "A2".data⟩,
   ⟨some "g3".data, "A3".data⟩, ⟨some "g4".data, "A4".data⟩]

/-- C6 witness: the 5-then-4 scenario of the claim, with the second sync
at timestamp 2: exactly 4 rows remain for the artist. -/
theorem C6_witness :
    ((syncExpectedTx 7 2 secondSyncAlbums firstSyncRows).filter
      (fun r => r.expectedArtistId = 7)).length = 4 := by
  exact (C6_sync_prune 7 2 secondSyncAlbums firstSyncRows
    (by decide) (by decide) (by decide) (by decide)).1

/-! ## Claim C3: stripTrailingYearSuffix -/

theorem head_false_of_dropWhile_self {p : Char → Bool} {a : Char} {l : JStr}
    (h : (a :: l).dropWhile p = a :: l) : p a = false := by
  cases hp : p a with
  | false => rfl
  | true =>
    exfalso
    rw [List.dropWhile_cons, if_pos hp] at h
    have hx := List.takeWhile_append_dropWhile p l
    rw [h] at hx
    have hlen := congrArg List.length hx
    simp [List.length_append] at hlen
    omega

theorem dropWhile_append_left {p : Char → Bool} {l l2 : JStr}
    (hself : l.dropWhile p = l) (hne : l ≠ []) :
    (l ++ l2).dropWhile p = l ++ l2 := by
  cases l with
  | nil => exact absurd rfl hne
  | cons a t =>
    have ha := head_false_of_dropWhile_self hself
    rw [List.cons_append]
    exact List.dropWhile_cons_of_neg (by simp [ha])

theorem jsTrim_eq_self {l : JStr} (h1 : l.dropWhile jsIsSpace = l)
    (h2 : l.reverse.dropWhile jsIsSpace = l.reverse) : jsTrim l = l := by
  unfold jsTrim
  rw [h1, h2, List.reverse_reverse]

theorem isYear4_parts {a b c d : Char} (h : isYear4 a b c d = true) :
    ((a = '1' ∧ b = '9') ∨ (a = '2' ∧ b = '0')) ∧
      isDigitCh c = true ∧ isDigitCh d = true := by
  simpa [isYear4] using h

theorem not_space_of_digit {c : Char} (h : isDigitCh c = true) : jsIsSpace c = false := by
  have hb : 0x30 ≤ c.toNat ∧ c.toNat ≤ 0x39 := by simpa [isDigitCh] using h
  simp only [jsIsSpace, decide_eq_false_iff_not]
  omega

theorem isYear4_false_last (d : Char) {a b c : Char} (hd : isDigitCh d = false) :
    isYear4 a b c d = false := by
  simp [isYear4, hd]

/-- The hypotheses shared by the general conjuncts of C3: the base is
trimmed and itself exhibits none of the four trailing-year patterns. -/
def CleanBase (base : JStr) : Prop :=
  base.dropWhile jsIsSpace = base ∧
  base.reverse.dropWhile jsIsSpace = base.reverse ∧
  parenYearSplit base = none ∧ bracketYearSplit base = none ∧
  dashYearSplit base = none ∧ bareYearSplit base = none

theorem strip_paren_suffix (base : JStr) (d1 d2 d3 d4 : Char)
    (hY : isYear4 d1 d2 d3 d4 = true) (hne : base ≠ []) (hcb : CleanBase base) :
    stripTrailingYearSuffix (base ++ [' ', '(', d1, d2, d3, d4, ')']) = base := by
  obtain ⟨hb1, hb2, hp, hbr, hd, hby⟩ := hcb
  have hrev0 : (base ++ [' ', '(', d1, d2, d3, d4, ')']).reverse =
      ')' :: d4 :: d3 :: d2 :: d1 :: '(' :: ' ' :: base.reverse := by
    rw [List.reverse_append]
    rfl
  have hrev : (base ++ [' ', '(', d1, d2, d3, d4, ')']).reverse.dropWhile jsIsSpace =
      ')' :: d4 :: d3 :: d2 :: d1 :: '(' :: ' ' :: base.reverse := by
    rw [hrev0]
    exact List.dropWhile_cons_of_neg (by decide)
  have hP : parenYearSplit (base ++ [' ', '(', d1, d2, d3, d4, ')']) = some base := by
    unfold parenYearSplit
    rw [hrev]
    show (if (')' : Char) = ')' ∧ ('(' : Char) = '(' ∧ isYear4 d1 d2 d3 d4 then
      some (((' ' :: base.reverse).dropWhile jsIsSpace).reverse) else none) = some base
    rw [if_pos ⟨rfl, rfl, hY⟩]
    rw [List.dropWhile_cons_of_pos (by decide), hb2, List.reverse_reverse]
  have hin : jsTrim (base ++ [' ', '(', d1, d2, d3, d4, ')']) =
      base ++ [' ', '(', d1, d2, d3, d4, ')'] := by
    apply jsTrim_eq_self
    · exact dropWhile_append_left hb1 hne
    · rw [hrev0]
      exact List.dropWhile_cons_of_neg (by decide)
  have hne2 : base ++ [' ', '(', d1, d2, d3, d4, ')'] ≠ [] := by
    intro h
    exact hne (List.append_eq_nil.mp h).1
  have hW : stripWrappedYears (base ++ [' ', '(', d1, d2, d3, d4, ')']) = base := by
    simp only [stripWrappedYears, applySplit]
    rw [hP]
    simp only [Option.getD_some]
    rw [hbr]
    simp only [Option.getD_none]
    rw [hd]
    simp only [Option.getD_none]
    exact jsTrim_eq_self hb1 hb2
  show (if jsTrim (base ++ [' ', '(', d1, d2, d3, d4, ')']) = [] then
      jsTrim (base ++ [' ', '(', d1, d2, d3, d4, ')'])
    else bareYearStep (stripWrappedYears (jsTrim (base ++ [' ', '(', d1, d2, d3, d4, ')'])))) = base
  rw [hin, if_neg hne2, hW]
  simp only [bareYearStep, hby]

theorem strip_bracket_suffix (base : JStr) (d1 d2 d3 d4 : Char)
    (hY : isYear4 d1 d2 d3 d4 = true) (hne : base ≠ []) (hcb : CleanBase base) :
    stripTrailingYearSuffix (base ++ [' ', '[', d1, d2, d3, d4, ']']) = base := by
  obtain ⟨hb1, hb2, hp, hbr, hd, hby⟩ := hcb
  have hrev0 : (base ++ [' ', '[', d1, d2, d3, d4, ']']).reverse =
      ']' :: d4 :: d3 :: d2 :: d1 :: '[' :: ' ' :: base.reverse := by
    rw [List.reverse_append]
    rfl
  have hrev : (base ++ [' ', '[', d1, d2, d3, d4, ']']).reverse.dropWhile jsIsSpace =
      ']' :: d4 :: d3 :: d2 :: d1 :: '[' :: ' ' :: base.reverse := by
    rw [hrev0]
    exact List.dropWhile_cons_of_neg (by decide)
  have hPn : parenYearSplit (base ++ [' ', '[', d1, d2, d3, d4, ']']) = none := by
    unfold parenYearSplit
    rw [hrev]
    show (if (']' : Char) = ')' ∧ ('[' : Char) = '(' ∧ isYear4 d1 d2 d3 d4 then
      some (((' ' :: base.reverse).dropWhile jsIsSpace).reverse) else none) = none
    rw [if_neg (fun hc => absurd hc.1 (by decide))]
  have hBs : bracketYearSplit (base ++ [' ', '[', d1, d2, d3, d4, ']']) = some base := by
    unfold bracketYearSplit
    rw [hrev]
    show (if (']' : Char) = ']' ∧ ('[' : Char) = '[' ∧ isYear4 d1 d2 d3 d4 then
      some (((' ' :: base.reverse).dropWhile jsIsSpace).reverse) else none) = some base
    rw [if_pos ⟨rfl, rfl, hY⟩]
    rw [List.dropWhile_cons_of_pos (by decide), hb2, List.reverse_reverse]
  have hin : jsTrim (base ++ [' ', '[', d1, d2, d3, d4, ']']) =
      base ++ [' ', '[', d1, d2, d3, d4, ']'] := by
    apply jsTrim_eq_self
    · exact dropWhile_append_left hb1 hne
    · rw [hrev0]
      exact List.dropWhile_cons_of_neg (by decide)
  have hne2 : base ++ [' ', '[', d1, d2, d3, d4, ']'] ≠ [] := by
    intro h
    exact hne (List.append_eq_nil.mp h).1
  have hW : stripWrappedYears (base ++ [' ', '[', d1, d2, d3, d4, ']']) = base := by
    simp only [stripWrappedYears, applySplit]
    rw [hPn]
    simp only [Option.getD_none]
    rw [hBs]
    simp only [Option.getD_some]
    rw [hd]
    simp only [Option.getD_none]
    exact jsTrim_eq_self hb1 hb2
  show (if jsTrim (base ++ [' ', '[', d1, d2, d3, d4, ']']) = [] then
      jsTrim (base ++ [' ', '[', d1, d2, d3, d4, ']'])
    else bareYearStep (stripWrappedYears (jsTrim (base ++ [' ', '[', d1, d2, d3, d4, ']'])))) = base
  rw [hin, if_neg hne2, hW]
  simp only [bareYearStep, hby]

theorem not_space_of_dash {c : Char} (h : isDashCh c = true) : jsIsSpace c = false := by
  have hb : c.toNat = 0x2D ∨ c.toNat = 0x2013 ∨ c.toNat = 0x2014 := by
    simpa [isDashCh] using h
  simp only [jsIsSpace, decide_eq_false_iff_not]
  omega

theorem strip_dash_suffix (base : JStr) (dsh d1 d2 d3 d4 : Char)
    (hY : isYear4 d1 d2 d3 d4 = true) (hdash : isDashCh dsh = true)
    (hne : base ≠ []) (hcb : CleanBase base) :
    stripTrailingYearSuffix (base ++ [' ', dsh, ' ', d1, d2, d3, d4]) = base := by
  obtain ⟨hb1, hb2, hp, hbr, hd, hby⟩ := hcb
  have hdig4 : isDigitCh d4 = true := (isYear4_parts hY).2.2
  have hsp4 : jsIsSpace d4 = false := not_space_of_digit hdig4
  have hds : jsIsSpace dsh = false := not_space_of_dash hdash
  have hrev0 : (base ++ [' ', dsh, ' ', d1, d2, d3, d4]).reverse =
      d4 :: d3 :: d2 :: d1 :: ' ' :: dsh :: ' ' :: base.reverse := by
    rw [List.reverse_append]
    rfl
  have hrev : (base ++ [' ', dsh, ' ', d1, d2, d3, d4]).reverse.dropWhile jsIsSpace =
      d4 :: d3 :: d2 :: d1 :: ' ' :: dsh :: ' ' :: base.reverse := by
    rw [hrev0]
    exact List.dropWhile_cons_of_neg (by simp [hsp4])
  have hPn : parenYearSplit (base ++ [' ', dsh, ' ', d1, d2, d3, d4]) = none := by
    unfold parenYearSplit
    rw [hrev]
    show (if d4 = ')' ∧ dsh = '(' ∧ isYear4 ' ' d1 d2 d3 then
      some (((' ' :: base.reverse).dropWhile jsIsSpace).reverse) else none) = none
    rw [if_neg (fun hc => absurd (hc.1 ▸ hdig4) (by decide))]
  have hBn : bracketYearSplit (base ++ [' ', dsh, ' ', d1, d2, d3, d4]) = none := by
    unfold bracketYearSplit
    rw [hrev]
    show (if d4 = ']' ∧ dsh = '[' ∧ isYear4 ' ' d1 d2 d3 then
      some (((' ' :: base.reverse).dropWhile jsIsSpace).reverse) else none) = none
    rw [if_neg (fun hc => absurd (hc.1 ▸ hdig4) (by decide))]
  have hr1 : (' ' :: dsh :: ' ' :: base.reverse).dropWhile jsIsSpace =
      dsh :: ' ' :: base.reverse := by
    rw [List.dropWhile_cons_of_pos (by decide)]
    exact List.dropWhile_cons_of_neg (by simp [hds])
  have hr2 : (' ' :: base.reverse).dropWhile jsIsSpace = base.reverse := by
    rw [List.dropWhile_cons_of_pos (by decide)]
    exact hb2
  have hDs : dashYearSplit (base ++ [' ', dsh, ' ', d1, d2, d3, d4]) = some base := by
    unfold dashYearSplit
    rw [hrev]
    show (if isYear4 d1 d2 d3 d4 then
        if ((' ' :: dsh :: ' ' :: base.reverse).dropWhile jsIsSpace).length <
            (' ' :: dsh :: ' ' :: base.reverse).length then
          (match (' ' :: dsh :: ' ' :: base.reverse).dropWhile jsIsSpace with
           | dsh2 :: rest2 =>
             if isDashCh dsh2 then
               if (rest2.dropWhile jsIsSpace).length < rest2.length then
                 some (rest2.dropWhile jsIsSpace).reverse
               else none
             else none
           | [] => none)
        else none
      else none) = some base
    rw [if_pos hY, hr1]
    rw [if_pos (by simp)]
    show (if isDashCh dsh then
        if ((' ' :: base.reverse).dropWhile jsIsSpace).length < (' ' :: base.reverse).length then
          some ((' ' :: base.reverse).dropWhile jsIsSpace).reverse
        else none
      else none) = some base
    rw [if_pos hdash, hr2]
    rw [if_pos (by simp)]
    rw [List.reverse_reverse]
  have hin : jsTrim (base ++ [' ', dsh, ' ', d1, d2, d3, d4]) =
      base ++ [' ', dsh, ' ', d1, d2, d3, d4] := by
    apply jsTrim_eq_self
    · exact dropWhile_append_left hb1 hne
    · rw [hrev0]
      exact List.dropWhile_cons_of_neg (by simp [hsp4])
  have hne2 : base ++ [' ', dsh, ' ', d1, d2, d3, d4] ≠ [] := by
    intro h
    exact hne (List.append_eq_nil.mp h).1
  have hW : stripWrappedYears (base ++ [' ', dsh, ' ', d1, d2, d3, d4]) = base := by
    simp only [stripWrappedYears, applySplit]
    rw [hPn]
    simp only [Option.getD_none]
    rw [hBn]
    simp only [Option.getD_none]
    rw [hDs]
    simp only [Option.getD_some]
    exact jsTrim_eq_self hb1 hb2
  show (if jsTrim (base ++ [' ', dsh, ' ', d1, d2, d3, d4]) = [] then
      jsTrim (base ++ [' ', dsh, ' ', d1, d2, d3, d4])
    else bareYearStep (stripWrappedYears (jsTrim (base ++ [' ', dsh, ' ', d1, d2, d3, d4])))) = base
  rw [hin, if_neg hne2, hW]
  simp only [bareYearStep, hby]

/-- The guard needed for the bare-year conjuncts: the base does not end
with a dash preceded by whitespace (which would instead trigger the
dash-year pattern of the combined string). -/
def noWsDashEnd (base : JStr) : Bool :=
  match base.reverse with
  | d :: r2 => ¬ isDashCh d ∨ (r2.dropWhile jsIsSpace).length = r2.length
  | [] => true

theorem strip_bare_splits (base : JStr) (d1 d2 d3 d4 : Char)
    (hY : isYear4 d1 d2 d3 d4 = true) (hne : base ≠ []) (hcb : CleanBase base)
    (hguard : noWsDashEnd base = true) :
    parenYearSplit (base ++ [' ', d1, d2, d3, d4]) = none ∧
    bracketYearSplit (base ++ [' ', d1, d2, d3, d4]) = none ∧
    dashYearSplit (base ++ [' ', d1, d2, d3, d4]) = none ∧
    bareYearSplit (base ++ [' ', d1, d2, d3, d4]) = some base ∧
    jsTrim (base ++ [' ', d1, d2, d3, d4]) = base ++ [' ', d1, d2, d3, d4] := by
  obtain ⟨hb1, hb2, hp, hbr, hd, hby⟩ := hcb
  have hdig4 : isDigitCh d4 = true := (isYear4_parts hY).2.2
  have hsp4 : jsIsSpace d4 = false := not_space_of_digit hdig4
  have hrev0 : (base ++ [' ', d1, d2, d3, d4]).reverse =
      d4 :: d3 :: d2 :: d1 :: ' ' :: base.reverse := by
    rw [List.reverse_append]
    rfl
  have hrev : (base ++ [' ', d1, d2, d3, d4]).reverse.dropWhile jsIsSpace =
      d4 :: d3 :: d2 :: d1 :: ' ' :: base.reverse := by
    rw [hrev0]
    exact List.dropWhile_cons_of_neg (by simp [hsp4])
  have hr2 : (' ' :: base.reverse).dropWhile jsIsSpace = base.reverse := by
    rw [List.dropWhile_cons_of_pos (by decide)]
    exact hb2
  refine ⟨?_, ?_, ?_, ?_, ?_⟩
  · unfold parenYearSplit
    rw [hrev]
    cases hbrev : base.reverse with
    | nil => rfl
    | cons d r2 =>
      show (if d4 = ')' ∧ d = '(' ∧ isYear4 ' ' d1 d2 d3 then
        some ((r2.dropWhile jsIsSpace).reverse) else none) = none
      rw [if_neg (fun hc => absurd (hc.1 ▸ hdig4) (by decide))]
  · unfold bracketYearSplit
    rw [hrev]
    cases hbrev : base.reverse with
    | nil => rfl
    | cons d r2 =>
      show (if d4 = ']' ∧ d = '[' ∧ isYear4 ' ' d1 d2 d3 then
        some ((r2.dropWhile jsIsSpace).reverse) else none) = none
      rw [if_neg (fun hc => absurd (hc.1 ▸ hdig4) (by decide))]
  · unfold dashYearSplit
    rw [hrev]
    show (if isYear4 d1 d2 d3 d4 then
        if ((' ' :: base.reverse).dropWhile jsIsSpace).length < (' ' :: base.reverse).length then
          (match (' ' :: base.reverse).dropWhile jsIsSpace with
           | dsh2 :: rest2 =>
             if isDashCh dsh2 then
               if (rest2.dropWhile jsIsSpace).length < rest2.length then
                 some (rest2.dropWhile jsIsSpace).reverse
               else none
             else none
           | [] => none)
        else none
      else none) = none
    rw [if_pos hY, hr2]
    rw [if_pos (by simp)]
    cases hbrev : base.reverse with
    | nil => rfl
    | cons d r2 =>
      show (if isDashCh d then
          if (r2.dropWhile jsIsSpace).length < r2.length then
            some ((r2.dropWhile jsIsSpace).reverse)
          else none
        else none) = none
      cases hdc : isDashCh d with
      | false => rw [if_neg (by simp)]
      | true =>
        have hg : (r2.dropWhile jsIsSpace).length = r2.length := by
          unfold noWsDashEnd at hguard
          rw [hbrev] at hguard
          simp only [decide_eq_true_eq] at hguard
          rcases hguard with hg1 | hg2
          · exact absurd hdc (by simpa using hg1)
          · exact hg2
        rw [if_pos rfl, if_neg (by rw [hg]; omega)]
  · unfold bareYearSplit
    rw [hrev]
    show (if isYear4 d1 d2 d3 d4 then
        if ((' ' :: base.reverse).dropWhile jsIsSpace).length < (' ' :: base.reverse).length then
          some (((' ' :: base.reverse).dropWhile jsIsSpace).reverse)
        else none
      else none) = some base
    rw [if_pos hY, hr2]
    rw [if_pos (by simp), List.reverse_reverse]
  · apply jsTrim_eq_self
    · exact dropWhile_append_left hb1 hne
    · rw [hrev0]
      exact List.dropWhile_cons_of_neg (by simp [hsp4])

theorem strip_bare_suffix (base : JStr) (d1 d2 d3 d4 : Char)
    (hY : isYear4 d1 d2 d3 d4 = true) (hne : base ≠ []) (hcb : CleanBase base)
    (hguard : noWsDashEnd base = true)
    (hexcl : ¬ (normalizedBaseOf base = "live".data ∨ normalizedBaseOf base = "the".data)) :
    stripTrailingYearSuffix (base ++ [' ', d1, d2, d3, d4]) = base := by
  obtain ⟨hPn, hBn, hDn, hBs, hin⟩ := strip_bare_splits base d1 d2 d3 d4 hY hne hcb hguard
  obtain ⟨hb1, hb2, _, _, _, _⟩ := hcb
  have hne2 : base ++ [' ', d1, d2, d3, d4] ≠ [] := by
    intro h
    exact hne (List.append_eq_nil.mp h).1
  have hW : stripWrappedYears (base ++ [' ', d1, d2, d3, d4]) =
      base ++ [' ', d1, d2, d3, d4] := by
    simp only [stripWrappedYears, applySplit]
    rw [hPn]
    simp only [Option.getD_none]
    rw [hBn]
    simp only [Option.getD_none]
    rw [hDn]
    simp only [Option.getD_none]
    exact hin
  show (if jsTrim (base ++ [' ', d1, d2, d3, d4]) = [] then
      jsTrim (base ++ [' ', d1, d2, d3, d4])
    else bareYearStep (stripWrappedYears (jsTrim (base ++ [' ', d1, d2, d3, d4])))) = base
  rw [hin, if_neg hne2, hW]
  simp only [bareYearStep]
  rw [hBs]
  show (if jsTrim base = [] then base ++ [' ', d1, d2, d3, d4]
    else if normalizedBaseOf (jsTrim base) = "live".data ∨
            normalizedBaseOf (jsTrim base) = "the".data then base ++ [' ', d1, d2, d3, d4]
    else jsTrim base) = base
  rw [jsTrim_eq_self hb1 hb2, if_neg hne, if_neg hexcl]

theorem strip_bare_excluded (base : JStr) (d1 d2 d3 d4 : Char)
    (hY : isYear4 d1 d2 d3 d4 = true) (hne : base ≠ []) (hcb : CleanBase base)
    (hguard : noWsDashEnd base = true)
    (hexcl : normalizedBaseOf base = "live".data ∨ normalizedBaseOf base = "the".data) :
    stripTrailingYearSuffix (base ++ [' ', d1, d2, d3, d4]) =
      base ++ [' ', d1, d2, d3, d4] := by
  obtain ⟨hPn, hBn, hDn, hBs, hin⟩ := strip_bare_splits base d1 d2 d3 d4 hY hne hcb hguard
  obtain ⟨hb1, hb2, _, _, _, _⟩ := hcb
  have hne2 : base ++ [' ', d1, d2, d3, d4] ≠ [] := by
    intro h
    exact hne (List.append_eq_nil.mp h).1
  have hW : stripWrappedYears (base ++ [' ', d1, d2, d3, d4]) =
      base ++ [' ', d1, d2, d3, d4] := by
    simp only [stripWrappedYears, applySplit]
    rw [hPn]
    simp only [Option.getD_none]
    rw [hBn]
    simp only [Option.getD_none]
    rw [hDn]
    simp only [Option.getD_none]
    exact hin
  show (if jsTrim (base ++ [' ', d1, d2, d3, d4]) = [] then
      jsTrim (base ++ [' ', d1, d2, d3, d4])
    else bareYearStep (stripWrappedYears (jsTrim (base ++ [' ', d1, d2, d3, d4])))) =
      base ++ [' ', d1, d2, d3, d4]
  rw [hin, if_neg hne2, hW]
  simp only [bareYearStep]
  rw [hBs]
  show (if jsTrim base = [] then base ++ [' ', d1, d2, d3, d4]
    else if normalizedBaseOf (jsTrim base) = "live".data ∨
            normalizedBaseOf (jsTrim base) = "the".data then base ++ [' ', d1, d2, d3, d4]
    else jsTrim base) = base ++ [' ', d1, d2, d3, d4]
  rw [jsTrim_eq_self hb1 hb2, if_neg hne, if_pos hexcl]

theorem strip_pure_year (d1 d2 d3 d4 : Char) (hY : isYear4 d1 d2 d3 d4 = true) :
    stripTrailingYearSuffix [d1, d2, d3, d4] = [d1, d2, d3, d4] := by
  have hdig4 : isDigitCh d4 = true := (isYear4_parts hY).2.2
  have hsp4 : jsIsSpace d4 = false := not_space_of_digit hdig4
  have hsp1 : jsIsSpace d1 = false := by
    rcases (isYear4_parts hY).1 with ⟨h1, _⟩ | ⟨h1, _⟩ <;> rw [h1] <;> decide
  have hrev0 : ([d1, d2, d3, d4] : JStr).reverse = [d4, d3, d2, d1] := rfl
  have hrev : ([d1, d2, d3, d4] : JStr).reverse.dropWhile jsIsSpace = [d4, d3, d2, d1] := by
    rw [hrev0]
    exact List.dropWhile_cons_of_neg (by simp [hsp4])
  have hPn : parenYearSplit [d1, d2, d3, d4] = none := by
    unfold parenYearSplit
    rw [hrev]
  have hBn : bracketYearSplit [d1, d2, d3, d4] = none := by
    unfold bracketYearSplit
    rw [hrev]
  have hDn : dashYearSplit [d1, d2, d3, d4] = none := by
    unfold dashYearSplit
    rw [hrev]
    show (if isYear4 d1 d2 d3 d4 then
        if ((([] : JStr).dropWhile jsIsSpace).length < ([] : JStr).length) then
          (match ([] : JStr).dropWhile jsIsSpace with
           | dsh2 :: rest2 =>
             if isDashCh dsh2 then
               if (rest2.dropWhile jsIsSpace).length < rest2.length then
                 some (rest2.dropWhile jsIsSpace).reverse
               else none
             else none
           | [] => none)
        else none
      else none) = none
    rw [if_pos hY, if_neg (by simp)]
  have hBaren : bareYearSplit [d1, d2, d3, d4] = none := by
    unfold bareYearSplit
    rw [hrev]
    show (if isYear4 d1 d2 d3 d4 then
        if ((([] : JStr).dropWhile jsIsSpace).length < ([] : JStr).length) then
          some ((([] : JStr).dropWhile jsIsSpace).reverse)
        else none
      else none) = none
    rw [if_pos hY, if_neg (by simp)]
  have h1 : ([d1, d2, d3, d4] : JStr).dropWhile jsIsSpace = [d1, d2, d3, d4] :=
    List.dropWhile_cons_of_neg (by simp [hsp1])
  have htrim : jsTrim [d1, d2, d3, d4] = [d1, d2, d3, d4] := by
    apply jsTrim_eq_self h1
    rw [hrev0]
    exact List.dropWhile_cons_of_neg (by simp [hsp4])
  have hne2 : ([d1, d2, d3, d4] : JStr) ≠ [] := by simp
  have hW : stripWrappedYears [d1, d2, d3, d4] = [d1, d2, d3, d4] := by
    simp only [stripWrappedYears, applySplit]
    rw [hPn]
    simp only [Option.getD_none]
    rw [hBn]
    simp only [Option.getD_none]
    rw [hDn]
    simp only [Option.getD_none]
    exact htrim
  show (if jsTrim [d1, d2, d3, d4] = [] then jsTrim [d1, d2, d3, d4]
    else bareYearStep (stripWrappedYears (jsTrim [d1, d2, d3, d4]))) = [d1, d2, d3, d4]
  rw [htrim, if_neg hne2, hW]
  simp only [bareYearStep, hBaren]

/-- C3 counterexample. The claim allows the bare trailing year to be
removed only when the portion before the year, AFTER NORMALIZATION, is
non-empty; the code only checks that the raw (trimmed) portion is
non-empty.  For `!! 1998` the portion `!!` normalizes to the empty string,
yet the code strips the year. -/
theorem C3_counterexample :
    stripTrailingYearSuffix "!! 1998".data = "!!".data ∧
    normalizedBaseOf "!!".data = [] ∧
    stripTrailingYearSuffix "!! 1998".data ≠ "!! 1998".data := by
  refine ⟨by decide, by decide, by decide⟩

/-- C3 (amended): `stripTrailingYearSuffix` removes a trailing ` (YYYY)`,
` [YYYY]` or ` - YYYY` (dash, en-dash or em-dash), with YYYY in 1900-2099,
from a clean base; it removes a bare trailing ` YYYY` exactly when the raw
portion before the year is non-empty (the normalization is consulted only
for the `live`/`the` exclusion and may itself be empty), and in particular
`Waiting (1998) ↦ Waiting`, `1984 ↦ 1984`, `Live 1998 ↦ Live 1998`. -/
theorem C3_strip_spec :
    (∀ (base : JStr) (d1 d2 d3 d4 : Char), isYear4 d1 d2 d3 d4 = true → base ≠ [] →
      CleanBase base →
      stripTrailingYearSuffix (base ++ [' ', '(', d1, d2, d3, d4, ')']) = base) ∧
    (∀ (base : JStr) (d1 d2 d3 d4 : Char), isYear4 d1 d2 d3 d4 = true → base ≠ [] →
      CleanBase base →
      stripTrailingYearSuffix (base ++ [' ', '[', d1, d2, d3, d4, ']']) = base) ∧
    (∀ (base : JStr) (dsh d1 d2 d3 d4 : Char), isYear4 d1 d2 d3 d4 = true →
      isDashCh dsh = true → base ≠ [] → CleanBase base →
      stripTrailingYearSuffix (base ++ [' ', dsh, ' ', d1, d2, d3, d4]) = base) ∧
    (∀ (base : JStr) (d1 d2 d3 d4 : Char), isYear4 d1 d2 d3 d4 = true → base ≠ [] →
      CleanBase base → noWsDashEnd base = true →
      ¬ (normalizedBaseOf base = "live".data ∨ normalizedBaseOf base = "the".data) →
      stripTrailingYearSuffix (base ++ [' ', d1, d2, d3, d4]) = base) ∧
    (∀ (base : JStr) (d1 d2 d3 d4 : Char), isYear4 d1 d2 d3 d4 = true → base ≠ [] →
      CleanBase base → noWsDashEnd base = true →
      (normalizedBaseOf base = "live".data ∨ normalizedBaseOf base = "the".data) →
      stripTrailingYearSuffix (base ++ [' ', d1, d2, d3, d4]) =
        base ++ [' ', d1, d2, d3, d4]) ∧
    (∀ d1 d2 d3 d4 : Char, isYear4 d1 d2 d3 d4 = true →
      stripTrailingYearSuffix [d1, d2, d3, d4] = [d1, d2, d3, d4]) ∧
    stripTrailingYearSuffix "Waiting (1998)".data = "Waiting".data ∧
    stripTrailingYearSuffix "1984".data = "1984".data ∧
    stripTrailingYearSuffix "Live 1998".data = "Live 1998".data := by
  refine ⟨?_, ?_, ?_, ?_, ?_, ?_, by decide, by decide, by decide⟩
  · intro base d1 d2 d3 d4 hY hne hcb
    exact strip_paren_suffix base d1 d2 d3 d4 hY hne hcb
  · intro base d1 d2 d3 d4 hY hne hcb
    exact strip_bracket_suffix base d1 d2 d3 d4 hY hne hcb
  · intro base dsh d1 d2 d3 d4 hY hdash hne hcb
    exact strip_dash_suffix base dsh d1 d2 d3 d4 hY hdash hne hcb
  · intro base d1 d2 d3 d4 hY hne hcb hguard hexcl
    exact strip_bare_suffix base d1 d2 d3 d4 hY hne hcb hguard hexcl
  · intro base d1 d2 d3 d4 hY hne hcb hguard hexcl
    exact strip_bare_excluded base d1 d2 d3 d4 hY hne hcb hguard hexcl
  · intro d1 d2 d3 d4 hY
    exact strip_pure_year d1 d2 d3 d4 hY

/-- C3 witness: the general conjuncts applied at concrete inputs. -/
theorem C3_witness :
    stripTrailingYearSuffix ("Foo".data ++ [' ', '(', '1', '9', '9', '8', ')']) = "Foo".data ∧
    stripTrailingYearSuffix ("Foo".data ++ [' ', '2', '0', '0', '3']) = "Foo".data ∧
    stripTrailingYearSuffix ("Live".data ++ [' ', '1', '9', '9', '8']) =
      "Live".data ++ [' ', '1', '9', '9', '8'] ∧
    stripTrailingYearSuffix ['1', '9', '8', '4'] = ['1', '9', '8', '4'] := by
  refine ⟨?_, ?_, ?_, ?_⟩
  · exact C3_strip_spec.1 "Foo".data '1' '9' '9' '8' (by decide) (by decide)
      ⟨by decide, by decide, by decide, by decide, by decide, by decide⟩
  · exact C3_strip_spec.2.2.2.1 "Foo".data '2' '0' '0' '3' (by decide) (by decide)
      ⟨by decide, by decide, by decide, by decide, by decide, by decide⟩ (by decide)
      (by decide)
  · exact C3_strip_spec.2.2.2.2.1 "Live".data '1' '9' '9' '8' (by decide) (by decide)
      ⟨by decide, by decide, by decide, by decide, by decide, by decide⟩ (by decide)
      (by decide)
  · exact C3_strip_spec.2.2.2.2.2.1 '1' '9' '8' '4' (by decide)

/-! ## Claim C1: computeSummary matching, missing list, completion -/

/-- The listing condition for an unmatched expected album. -/
def missingListed (inp : SummaryInput) (e : ExpectedAlbum) : Bool :=
  !(albumHasMatch inp e) && !(inp.ignoredIds.contains e.id) &&
  shouldIncludeAlbum e inp.settings

theorem summaryLoop_eq (inp : SummaryInput) :
    summaryLoop inp =
      (inp.expectedAlbums.countP (albumHasMatch inp),
       (inp.expectedAlbums.filter (missingListed inp)).map toMissingEntry) := by
  unfold summaryLoop
  suffices h : ∀ (l : List ExpectedAlbum) (n : Nat) (acc : List MissingEntry),
      l.foldl (fun acc e =>
        if albumHasMatch inp e then (acc.1 + 1, acc.2)
        else if ¬ inp.ignoredIds.contains e.id ∧ shouldIncludeAlbum e inp.settings then
          (acc.1, acc.2 ++ [toMissingEntry e])
        else acc) (n, acc) =
      (n + l.countP (albumHasMatch inp),
       acc ++ (l.filter (missingListed inp)).map toMissingEntry) by
    rw [h inp.expectedAlbums 0 []]
    simp
  intro l
  induction l with
  | nil => intro n acc; simp
  | cons e l ih =>
    intro n acc
    rw [List.foldl_cons]
    by_cases hm : albumHasMatch inp e = true
    · rw [if_pos hm, ih]
      have hml : missingListed inp e = false := by
        simp [missingListed, hm]
      rw [List.countP_cons_of_pos _ _ hm, List.filter_cons_of_neg (by simp [hml])]
      refine Prod.ext ?_ rfl
      show n + 1 + List.countP (albumHasMatch inp) l =
        n + (List.countP (albumHasMatch inp) l + 1)
      omega
    · rw [if_neg hm]
      have hmf : albumHasMatch inp e = false := by
        cases hx : albumHasMatch inp e with
        | false => rfl
        | true => exact absurd hx hm
      by_cases hl : ¬ inp.ignoredIds.contains e.id = true ∧
          shouldIncludeAlbum e inp.settings = true
      · rw [if_pos hl, ih]
        have hc0 : inp.ignoredIds.contains e.id = false := by
          cases hx : inp.ignoredIds.contains e.id with
          | false => rfl
          | true => exact absurd hx hl.1
        have hni : e.id ∉ inp.ignoredIds := by simpa using hc0
        have hml : missingListed inp e = true := by
          simp [missingListed, hmf, hni, hl.2]
        rw [List.countP_cons_of_neg _ _ (by simp [hmf]),
          List.filter_cons_of_pos (by simp [hml])]
        simp
      · rw [if_neg hl, ih]
        have hml : missingListed inp e = false := by
          simp only [missingListed, hmf, Bool.not_false, Bool.true_and]
          cases hc : inp.ignoredIds.contains e.id with
          | true => simp
          | false =>
            simp only [Bool.not_false, Bool.true_and]
            cases hs : shouldIncludeAlbum e inp.settings with
            | false => rfl
            | true => exact absurd ⟨by simpa using hc, hs⟩ hl
        rw [List.countP_cons_of_neg _ _ (by simp [hmf]),
          List.filter_cons_of_neg (by simp [hml])]

set_option maxHeartbeats 400000 in
theorem albumHasMatch_iff (inp : SummaryInput) (e : ExpectedAlbum) :
    albumHasMatch inp e = true ↔
      (overrideTruthy inp.overrides e.id = true ∨
       (∃ o ∈ inp.ownedAlbums, normalizeTitle o.title = e.normalizedTitle) ∨
       (∃ o ∈ inp.ownedAlbums,
         isStrongTitleAliasMatch (normalizeTitle o.title) e.normalizedTitle = true)) := by
  have hd : albumHasMatch inp e = true ↔
      (overrideTruthy inp.overrides e.id = true ∨
       ((ownedWithNormalized inp).filter
         (fun o => o.normalizedTitle = e.normalizedTitle)) ≠ [] ∨
       (ownedWithNormalized inp).any
         (fun o => isStrongTitleAliasMatch o.normalizedTitle e.normalizedTitle) = true) :=
    ⟨fun h => of_decide_eq_true h, fun h => decide_eq_true h⟩
  rw [hd]
  constructor
  · rintro (h1 | h2 | h3)
    · exact Or.inl h1
    · refine Or.inr (Or.inl ?_)
      obtain ⟨x, hx⟩ := List.exists_mem_of_ne_nil _ h2
      have hx2 := List.mem_filter.mp hx
      have hxm : x ∈ inp.ownedAlbums.map
          (fun a => (⟨a.id, a.title, normalizeTitle a.title⟩ : OwnedNorm)) := hx2.1
      obtain ⟨a, ha, hax⟩ := List.mem_map.mp hxm
      refine ⟨a, ha, ?_⟩
      have hxe : x.normalizedTitle = e.normalizedTitle := of_decide_eq_true hx2.2
      have hax2 : (⟨a.id, a.title, normalizeTitle a.title⟩ : OwnedNorm) = x := hax
      rw [← hax2] at hxe
      dsimp only at hxe
      exact hxe
    · obtain ⟨x, hx, hpx⟩ := List.any_eq_true.mp h3
      have hxm : x ∈ inp.ownedAlbums.map
          (fun a => (⟨a.id, a.title, normalizeTitle a.title⟩ : OwnedNorm)) := hx
      obtain ⟨a, ha, hax⟩ := List.mem_map.mp hxm
      refine Or.inr (Or.inr ⟨a, ha, ?_⟩)
      have hax2 : (⟨a.id, a.title, normalizeTitle a.title⟩ : OwnedNorm) = x := hax
      have hpx2 : isStrongTitleAliasMatch x.normalizedTitle e.normalizedTitle = true := hpx
      rw [← hax2] at hpx2
      dsimp only at hpx2
      exact hpx2
  · rintro (h1 | ⟨o, ho, heq⟩ | ⟨o, ho, halias⟩)
    · exact Or.inl h1
    · refine Or.inr (Or.inl ?_)
      intro hnil
      have hmem : (⟨o.id, o.title, normalizeTitle o.title⟩ : OwnedNorm) ∈
          (ownedWithNormalized inp).filter
            (fun o2 => o2.normalizedTitle = e.normalizedTitle) :=
        List.mem_filter.mpr ⟨List.mem_map.mpr ⟨o, ho, rfl⟩,
          by dsimp only; exact decide_eq_true heq⟩
      rw [hnil] at hmem
      exact List.not_mem_nil _ hmem
    · refine Or.inr (Or.inr ?_)
      refine List.any_eq_true.mpr ⟨⟨o.id, o.title, normalizeTitle o.title⟩,
        List.mem_map.mpr ⟨o, ho, rfl⟩, ?_⟩
      dsimp only
      exact halias

/-- C1 (amended): `computeSummary` decides an expected album matched
exactly when a truthy (non-null, nonzero) override entry exists for its id
— whether or not an owned album with that id exists — or some owned album
(deleted=0, owned=1) has an equal normalized title, or some owned album is
a strong alias match; the missing list consists precisely of the
unmatched, un-ignored expected albums passing the compilation/live
inclusion filters, in order; and `completionPct` is `null` when
`expectedCount = 0` and `round(matched/expected*100)` otherwise. -/
theorem C1_summary_spec (inp : SummaryInput) :
    (∀ e, e ∈ inp.expectedAlbums →
      (albumHasMatch inp e = true ↔
        (overrideTruthy inp.overrides e.id = true ∨
         (∃ o ∈ inp.ownedAlbums, normalizeTitle o.title = e.normalizedTitle) ∨
         (∃ o ∈ inp.ownedAlbums,
           isStrongTitleAliasMatch (normalizeTitle o.title) e.normalizedTitle = true)))) ∧
    (computeSummary inp).missingAlbums =
      (inp.expectedAlbums.filter (missingListed inp)).map toMissingEntry ∧
    (computeSummary inp).completionPct =
      (if inp.expectedAlbums.length = 0 then none
       else some (jsRound ((inp.expectedAlbums.countP (albumHasMatch inp) : ℚ) /
         (inp.expectedAlbums.length : ℚ) * 100))) := by
  refine ⟨fun e _ => albumHasMatch_iff inp e, ?_, ?_⟩
  · show (summaryLoop inp).2 = _
    rw [summaryLoop_eq]
  · show (if inp.expectedAlbums.length = 0 then none
      else some (jsRound (((summaryLoop inp).1 : ℚ) / (inp.expectedAlbums.length : ℚ) * 100))) = _
    rw [summaryLoop_eq]

/-- The matched condition exactly as the claim words it: the override must
map the expected album to an (existing) owned album. -/
def specC1Matched (inp : SummaryInput) (e : ExpectedAlbum) : Prop :=
  (∃ v : Int, overrideLookup inp.overrides e.id = some (some v) ∧ v ≠ 0 ∧
    ∃ o ∈ inp.ownedAlbums, o.id = v) ∨
  (∃ o ∈ inp.ownedAlbums, normalizeTitle o.title = e.normalizedTitle) ∨
  (∃ o ∈ inp.ownedAlbums,
    isStrongTitleAliasMatch (normalizeTitle o.title) e.normalizedTitle = true)

/-- The counterexample input: one expected album, no owned albums, one
override row pointing its id at the non-existent owned album 42. -/
def c1Inp : SummaryInput :=
  { expectedAlbums := [⟨1, "X".data, none, none, some "Album".data, [], "x".data⟩]
    ownedAlbums := [], overrides := [⟨1, some 42⟩], ignoredIds := []
    settings := ⟨false, false⟩ }

/-- C1 counterexample. The code counts the expected album matched on the
bare truthiness of the override's `ownedAlbumId` (no owned album 42
exists): `completionPct = 100` and `missingAlbums = []`, although by the
claim's wording (override maps to AN OWNED ALBUM) the album is unmatched,
not ignored, passes the filters, and so should be missing. -/
theorem C1_counterexample :
    (computeSummary c1Inp).missingAlbums = [] ∧
    (computeSummary c1Inp).completionPct = some 100 ∧
    ¬ specC1Matched c1Inp ⟨1, "X".data, none, none, some "Album".data, [], "x".data⟩ ∧
    c1Inp.ignoredIds.contains 1 = false ∧
    shouldIncludeAlbum ⟨1, "X".data, none, none, some "Album".data, [], "x".data⟩
      ⟨false, false⟩ = true := by
  refine ⟨by decide, ?_, ?_, by decide, by decide⟩
  · have h1 : (summaryLoop c1Inp).1 = 1 := by decide
    show (if c1Inp.expectedAlbums.length = 0 then none
        else some (jsRound (((summaryLoop c1Inp).1 : ℚ) /
          (c1Inp.expectedAlbums.length : ℚ) * 100))) = some 100
    rw [h1, show c1Inp.expectedAlbums.length = 1 from by decide]
    have h2 : jsRound (((1 : Nat) : ℚ) / ((1 : Nat) : ℚ) * 100) = 100 := by
      unfold jsRound
      rw [Int.floor_eq_iff]
      norm_num
    rw [if_neg (by decide), h2]
  · rintro (⟨v, _, _, o, ho, _⟩ | ⟨o, ho, _⟩ | ⟨o, ho, _⟩) <;>
      exact List.not_mem_nil o ho

/-- C1 witness: the characterization applied to a concrete artist whose
one expected album is matched by normalized-title equality. -/
theorem C1_witness :
    albumHasMatch
      { expectedAlbums := [⟨1, "Waiting".data, some 1998, some "Album".data,
          some "Album".data, [], "waiting".data⟩]
        ownedAlbums := [⟨5, "Waiting (1998)".data⟩], overrides := [], ignoredIds := []
        settings := ⟨false, false⟩ }
      ⟨1, "Waiting".data, some 1998, some "Album".data, some "Album".data, [],
        "waiting".data⟩ = true := by
  refine ((C1_summary_spec _).1 _ (by decide)).mpr ?_
  refine Or.inr (Or.inl ⟨⟨5, "Waiting (1998)".data⟩, by decide, by decide⟩)

/-! ## Claim C2: idempotence of normalizeTitle -/

/-- Characters that every stage of `normalizeTitle` maps to themselves:
the plain space, and any character that is not punctuation/symbol, not a
combining mark, not an ASCII uppercase letter and not whitespace. -/
def stableChar (c : Char) : Bool :=
  c = ' ' ∨ (¬ isPunctSym c ∧ ¬ isMark c ∧
    ¬ (0x41 ≤ c.toNat ∧ c.toNat ≤ 0x5A) ∧ ¬ jsIsSpace c)

theorem stable_nfkd {c : Char} (h : stableChar c = true) : nfkdChar c = [c] := by
  rcases of_decide_eq_true h with h1 | ⟨hp, _, _, hs⟩
  · subst h1; decide
  · unfold nfkdChar
    rw [if_neg, if_neg]
    · intro hc
      exact hp (by simp [isPunctSym]; omega)
    · intro hc
      exact hs (by simp [jsIsSpace]; omega)

theorem stable_apos {c : Char} (h : stableChar c = true) : isCurlyApos c = false := by
  rcases of_decide_eq_true h with h1 | ⟨hp, _, _, _⟩
  · subst h1; decide
  · cases hx : isCurlyApos c with
    | false => rfl
    | true =>
      exfalso
      have := of_decide_eq_true hx
      exact hp (by simp [isPunctSym]; omega)

theorem stable_quote {c : Char} (h : stableChar c = true) : isCurlyQuote c = false := by
  rcases of_decide_eq_true h with h1 | ⟨hp, _, _, _⟩
  · subst h1; decide
  · cases hx : isCurlyQuote c with
    | false => rfl
    | true =>
      exfalso
      have := of_decide_eq_true hx
      exact hp (by simp [isPunctSym]; omega)

theorem stable_lower {c : Char} (h : stableChar c = true) : jsToLower c = c := by
  rcases of_decide_eq_true h with h1 | ⟨_, _, hu, _⟩
  · subst h1; decide
  · unfold jsToLower
    rw [if_neg hu]

theorem stable_plusAmp {c : Char} (h : stableChar c = true) : ¬ (c = '+' ∨ c = '&') := by
  rcases of_decide_eq_true h with h1 | ⟨hp, _, _, _⟩
  · subst h1; decide
  · rintro (rfl | rfl) <;> exact hp (by decide)

theorem stable_mark {c : Char} (h : stableChar c = true) : isMark c = false := by
  rcases of_decide_eq_true h with h1 | ⟨_, hm, _, _⟩
  · subst h1; decide
  · simpa using hm

theorem stable_punct {c : Char} (h : stableChar c = true) : isPunctSym c = false := by
  rcases of_decide_eq_true h with h1 | ⟨hp, _, _, _⟩
  · subst h1; decide
  · simpa using hp

theorem map_fix {f : Char → Char} : ∀ s : JStr, (∀ c ∈ s, f c = c) → s.map f = s := by
  intro s
  induction s with
  | nil => intro _; rfl
  | cons c rest ih =>
    intro h
    rw [List.map_cons, h c (by simp), ih (fun d hd => h d (by simp [hd]))]

theorem flatMap_fix {f : Char → List Char} :
    ∀ s : JStr, (∀ c ∈ s, f c = [c]) → s.flatMap f = s := by
  intro s
  induction s with
  | nil => intro _; rfl
  | cons c rest ih =>
    intro h
    rw [List.flatMap_cons, h c (by simp), ih (fun d hd => h d (by simp [hd]))]
    rfl

theorem filter_fix {p : Char → Bool} : ∀ s : JStr, (∀ c ∈ s, p c = true) → s.filter p = s := by
  intro s
  induction s with
  | nil => intro _; rfl
  | cons c rest ih =>
    intro h
    rw [List.filter_cons_of_pos (h c (by simp)), ih (fun d hd => h d (by simp [hd]))]

theorem jsNFKD_fix {s : JStr} (h : ∀ c ∈ s, stableChar c = true) : jsNFKD s = s :=
  flatMap_fix s (fun c hc => stable_nfkd (h c hc))

theorem replaceCurlyApos_fix {s : JStr} (h : ∀ c ∈ s, stableChar c = true) :
    replaceCurlyApos s = s :=
  map_fix s (fun c hc => by rw [if_neg]; simp [stable_apos (h c hc)])

theorem replaceCurlyQuotes_fix {s : JStr} (h : ∀ c ∈ s, stableChar c = true) :
    replaceCurlyQuotes s = s :=
  map_fix s (fun c hc => by rw [if_neg]; simp [stable_quote (h c hc)])

theorem mapToLower_fix {s : JStr} (h : ∀ c ∈ s, stableChar c = true) :
    s.map jsToLower = s :=
  map_fix s (fun c hc => stable_lower (h c hc))

theorem andExpand_fix {s : JStr} (h : ∀ c ∈ s, stableChar c = true) : andExpand s = s :=
  flatMap_fix s (fun c hc => if_neg (stable_plusAmp (h c hc)))

theorem removeMarks_fix {s : JStr} (h : ∀ c ∈ s, stableChar c = true) : removeMarks s = s :=
  filter_fix s (fun c hc => by simp [stable_mark (h c hc)])

theorem punctToSpace_fix {s : JStr} (h : ∀ c ∈ s, stableChar c = true) :
    punctToSpace s = s :=
  map_fix s (fun c hc => by rw [if_neg]; simp [stable_punct (h c hc)])

theorem collapseWS_cons_nonspace {c : Char} {rest : JStr} (h : jsIsSpace c = false) :
    collapseWS (c :: rest) = c :: collapseWS rest := by
  simp [collapseWS, h]

theorem collapseWS_cons_space_space {c : Char} {rest t : JStr} (h : jsIsSpace c = true)
    (hr : collapseWS rest = ' ' :: t) : collapseWS (c :: rest) = ' ' :: t := by
  rw [collapseWS.eq_def]
  simp only [h, if_true, hr]

theorem collapseWS_cons_space_nil {c : Char} {rest : JStr} (h : jsIsSpace c = true)
    (hr : collapseWS rest = []) : collapseWS (c :: rest) = [' '] := by
  rw [collapseWS.eq_def]
  simp only [h, if_true, hr]

theorem collapseWS_cons_space_other {c d : Char} {rest t : JStr} (h : jsIsSpace c = true)
    (hr : collapseWS rest = d :: t) (hd : d ≠ ' ') :
    collapseWS (c :: rest) = ' ' :: d :: t := by
  rw [collapseWS.eq_def]
  simp only [h, if_true, hr]
  split
  · rename_i tail heq
    injection heq with h1 h2
    exact absurd h1 hd
  · rfl

theorem mem_collapseWS {c : Char} : ∀ {s : JStr}, c ∈ collapseWS s →
    c = ' ' ∨ (c ∈ s ∧ jsIsSpace c = false) := by
  intro s
  induction s with
  | nil => intro h; simp [collapseWS] at h
  | cons a rest ih =>
    intro h
    by_cases ha : jsIsSpace a = true
    · cases hr : collapseWS rest with
      | nil =>
        rw [collapseWS_cons_space_nil ha hr] at h
        simp at h
        exact Or.inl h
      | cons d t =>
        by_cases hd : d = ' '
        · subst hd
          rw [collapseWS_cons_space_space ha hr] at h
          rcases ih (by rw [hr]; exact h) with h1 | ⟨h2, h3⟩
          · exact Or.inl h1
          · exact Or.inr ⟨List.mem_cons_of_mem a h2, h3⟩
        · rw [collapseWS_cons_space_other ha hr hd] at h
          rcases List.mem_cons.mp h with rfl | h2
          · exact Or.inl rfl
          · rcases ih (by rw [hr]; exact h2) with h1 | ⟨h3, h4⟩
            · exact Or.inl h1
            · exact Or.inr ⟨List.mem_cons_of_mem a h3, h4⟩
    · have ha2 : jsIsSpace a = false := by
        cases hx : jsIsSpace a with
        | false => rfl
        | true => exact absurd hx ha
      rw [collapseWS_cons_nonspace ha2] at h
      rcases List.mem_cons.mp h with rfl | h2
      · exact Or.inr ⟨List.mem_cons_self _ _, ha2⟩
      · rcases ih h2 with h1 | ⟨h3, h4⟩
        · exact Or.inl h1
        · exact Or.inr ⟨List.mem_cons_of_mem a h3, h4⟩

theorem mem_jsTrim {c : Char} {s : JStr} (h : c ∈ jsTrim s) : c ∈ s := by
  unfold jsTrim at h
  rw [List.mem_reverse] at h
  have h1 := (List.dropWhile_suffix jsIsSpace).subset h
  rw [List.mem_reverse] at h1
  exact (List.dropWhile_suffix jsIsSpace).subset h1

theorem altMatch_subset {alts : List JStr} :
    ∀ {s r : JStr}, altMatch alts s = some r → ∀ c ∈ r, c ∈ s := by
  induction alts with
  | nil => intro s r h; simp [altMatch] at h
  | cons a more ih =>
    intro s r h
    have h2 : (if a ≠ [] ∧ a.isPrefixOf s = true ∧ noWordAhead (s.drop a.length) = true then
        some (s.drop a.length) else altMatch more s) = some r := h
    by_cases hc : a ≠ [] ∧ a.isPrefixOf s = true ∧ noWordAhead (s.drop a.length) = true
    · rw [if_pos hc] at h2
      cases h2
      intro c hcr
      exact (List.drop_suffix _ _).subset hcr
    · rw [if_neg hc] at h2
      exact ih h2

theorem mem_tokenPassGo {alts : List JStr} {c : Char} :
    ∀ (fuel : Nat) (w : Bool) (s : JStr), c ∈ tokenPassGo alts fuel w s →
      c = ' ' ∨ c ∈ s := by
  intro fuel
  induction fuel with
  | zero => intro w s h; exact Or.inr h
  | succ n ih =>
    intro w s h
    cases s with
    | nil => simp [tokenPassGo] at h
    | cons a rest =>
      cases w with
      | true =>
        have h3 : c ∈ a :: tokenPassGo alts n (isWordCh a) rest := h
        rcases List.mem_cons.mp h3 with rfl | h2
        · exact Or.inr (List.mem_cons_self _ _)
        · rcases ih (isWordCh a) rest h2 with h1 | h4
          · exact Or.inl h1
          · exact Or.inr (List.mem_cons_of_mem a h4)
      | false =>
        simp only [tokenPassGo, Bool.false_eq_true, if_false] at h
        cases ham : altMatch alts (a :: rest) with
        | some rest1 =>
          rw [ham] at h
          rcases List.mem_cons.mp h with rfl | h2
          · exact Or.inl rfl
          · rcases ih true rest1 h2 with h1 | h3
            · exact Or.inl h1
            · exact Or.inr (altMatch_subset ham c h3)
        | none =>
          rw [ham] at h
          rcases List.mem_cons.mp h with rfl | h2
          · exact Or.inr (List.mem_cons_self _ _)
          · rcases ih (isWordCh a) rest h2 with h1 | h3
            · exact Or.inl h1
            · exact Or.inr (List.mem_cons_of_mem a h3)

theorem mem_editionFold {c : Char} :
    ∀ (pats : List (List JStr)) (s : JStr),
      c ∈ pats.foldl (fun acc alts => tokenPass alts acc) s → c = ' ' ∨ c ∈ s := by
  intro pats
  induction pats with
  | nil => intro s h; exact Or.inr h
  | cons p ps ih =>
    intro s h
    rw [List.foldl_cons] at h
    rcases ih _ h with h1 | h2
    · exact Or.inl h1
    · rcases mem_tokenPassGo _ _ _ h2 with h1 | h3
      · exact Or.inl h1
      · exact Or.inr h3

theorem mem_editionTokenPasses {c : Char} {s : JStr} (h : c ∈ editionTokenPasses s) :
    c = ' ' ∨ c ∈ s := mem_editionFold _ _ h

theorem mem_punctToSpace {c : Char} {s : JStr} (h : c ∈ punctToSpace s) :
    isPunctSym c = false ∧ (c = ' ' ∨ c ∈ s) := by
  obtain ⟨a, ha, rfl⟩ := List.mem_map.mp h
  by_cases hp : isPunctSym a = true
  · rw [if_pos hp]
    exact ⟨by decide, Or.inl rfl⟩
  · have hp2 : isPunctSym a = false := by
      cases hx : isPunctSym a with
      | false => rfl
      | true => exact absurd hx hp
    rw [if_neg (by simp [hp2])]
    exact ⟨hp2, Or.inr ha⟩

theorem mem_removeMarks {c : Char} {s : JStr} (h : c ∈ removeMarks s) :
    c ∈ s ∧ isMark c = false := by
  have h2 := List.mem_filter.mp h
  refine ⟨h2.1, ?_⟩
  have := h2.2
  simp at this
  simpa using this

theorem mem_andExpand {c : Char} {s : JStr} (h : c ∈ andExpand s) :
    c ∈ (" and ".data) ∨ c ∈ s := by
  rw [andExpand] at h
  rw [List.mem_flatMap] at h
  obtain ⟨a, ha, hc⟩ := h
  by_cases hpa : a = '+' ∨ a = '&'
  · rw [if_pos hpa] at hc
    exact Or.inl hc
  · rw [if_neg hpa] at hc
    simp at hc
    subst hc
    exact Or.inr ha

theorem toNat_ofNat_valid (n : Nat) (h : Nat.isValidChar n) : (Char.ofNat n).toNat = n := by
  simp only [Char.ofNat, Char.toNat]
  rw [dif_pos h]
  show (Char.ofNatAux n h).val.toNat = n
  simp [Char.ofNatAux, UInt32.toNat, UInt32.ofNatCore]

theorem mem_mapToLower {c : Char} {s : JStr} (h : c ∈ s.map jsToLower) :
    ¬ (0x41 ≤ c.toNat ∧ c.toNat ≤ 0x5A) := by
  obtain ⟨a, _, rfl⟩ := List.mem_map.mp h
  unfold jsToLower
  by_cases ha : 0x41 ≤ a.toNat ∧ a.toNat ≤ 0x5A
  · rw [if_pos ha]
    have hv : Nat.isValidChar (a.toNat + 32) := Or.inl (by omega)
    rw [toNat_ofNat_valid _ hv]
    omega
  · rw [if_neg ha]
    exact ha

theorem normTitle_stable {t : JStr} : ∀ c ∈ normalizeTitle t, stableChar c = true := by
  intro c hc
  unfold normalizeTitle at hc
  have h1 := mem_jsTrim hc
  rcases mem_collapseWS h1 with rfl | ⟨h2, hns⟩
  · exact decide_eq_true (Or.inl rfl)
  rcases mem_editionTokenPasses h2 with rfl | h3
  · exact absurd hns (by decide)
  obtain ⟨hnp, h4⟩ := mem_punctToSpace h3
  rcases h4 with rfl | h5
  · exact absurd hns (by decide)
  obtain ⟨h6, hnm⟩ := mem_removeMarks h5
  rcases mem_andExpand h6 with h7 | h7
  · simp at h7
    rcases h7 with rfl | rfl | rfl | rfl | rfl
    · decide
    · decide
    · decide
    · decide
    · decide
  · have hnu := mem_mapToLower h7
    refine decide_eq_true (Or.inr ⟨?_, ?_, hnu, ?_⟩)
    · simp [hnp]
    · simp [hnm]
    · simp [hns]

/-- The invariant established by `collapseWS`: every whitespace character
is the plain space and no two spaces are adjacent. -/
def Collapsed (s : JStr) : Prop :=
  (∀ c ∈ s, jsIsSpace c = true → c = ' ') ∧
  s.Chain' (fun a b => ¬(a = ' ' ∧ b = ' '))

theorem collapseWS_collapsed : ∀ s : JStr, Collapsed (collapseWS s) := by
  intro s
  induction s with
  | nil =>
    constructor
    · intro c hc
      simp [collapseWS] at hc
    · simp [collapseWS]
  | cons a rest ih =>
    by_cases ha : jsIsSpace a = true
    · cases hr : collapseWS rest with
      | nil =>
        rw [collapseWS_cons_space_nil ha hr]
        constructor
        · intro c hc _
          simpa using hc
        · simp
      | cons d t =>
        rw [hr] at ih
        by_cases hd : d = ' '
        · subst hd
          rw [collapseWS_cons_space_space ha hr]
          exact ih
        · rw [collapseWS_cons_space_other ha hr hd]
          constructor
          · intro c hc hsp
            rcases List.mem_cons.mp hc with rfl | h2
            · rfl
            · exact ih.1 c h2 hsp
          · rw [List.chain'_cons']
            refine ⟨?_, ih.2⟩
            intro b hb
            simp at hb
            subst hb
            exact fun hcon => hd hcon.2
    · have ha2 : jsIsSpace a = false := by
        cases hx : jsIsSpace a with
        | false => rfl
        | true => exact absurd hx ha
      rw [collapseWS_cons_nonspace ha2]
      constructor
      · intro c hc hsp
        rcases List.mem_cons.mp hc with rfl | h2
        · rw [ha2] at hsp
          cases hsp
        · exact ih.1 c h2 hsp
      · rw [List.chain'_cons']
        refine ⟨?_, ih.2⟩
        intro b hb hcon
        rw [hcon.1] at ha2
        exact absurd ha2 (by decide)

theorem collapsed_fix : ∀ {s : JStr}, Collapsed s → collapseWS s = s := by
  intro s
  induction s with
  | nil => intro _; rfl
  | cons a rest ih =>
    intro hcol
    have hrest : Collapsed rest :=
      ⟨fun c hc => hcol.1 c (List.mem_cons_of_mem a hc), (List.chain'_cons'.mp hcol.2).2⟩
    have hcr : collapseWS rest = rest := ih hrest
    by_cases ha : jsIsSpace a = true
    · have ha' : a = ' ' := hcol.1 a (List.mem_cons_self _ _) ha
      subst ha'
      cases hrr : rest with
      | nil =>
        rw [hrr] at hcr
        exact collapseWS_cons_space_nil ha hcr
      | cons b t =>
        have hb := (List.chain'_cons'.mp hcol.2).1 b (by rw [hrr]; rfl)
        have hbne : b ≠ ' ' := fun h => hb ⟨rfl, h⟩
        rw [hrr] at hcr
        rw [← hrr]
        rw [hrr]
        exact collapseWS_cons_space_other ha hcr hbne
    · have ha2 : jsIsSpace a = false := by
        cases hx : jsIsSpace a with
        | false => rfl
        | true => exact absurd hx ha
      rw [collapseWS_cons_nonspace ha2, hcr]

theorem jsTrim_eq_rdrop (s : JStr) :
    jsTrim s = List.rdropWhile jsIsSpace (s.dropWhile jsIsSpace) := rfl

theorem jsTrim_idem (s : JStr) : jsTrim (jsTrim s) = jsTrim s := by
  rw [jsTrim_eq_rdrop s, jsTrim_eq_rdrop]
  have hd : (List.rdropWhile jsIsSpace (s.dropWhile jsIsSpace)).dropWhile jsIsSpace
      = List.rdropWhile jsIsSpace (s.dropWhile jsIsSpace) := by
    cases hr : List.rdropWhile jsIsSpace (s.dropWhile jsIsSpace) with
    | nil => rfl
    | cons a tl =>
      have hpfx : a :: tl <+: s.dropWhile jsIsSpace := by
        rw [← hr]
        exact List.rdropWhile_prefix _ _
      obtain ⟨r2, hr2⟩ := hpfx
      have hds : s.dropWhile jsIsSpace = a :: (tl ++ r2) := by
        rw [← hr2]
        rfl
      have hself : (a :: (tl ++ r2)).dropWhile jsIsSpace = a :: (tl ++ r2) := by
        rw [← hds]
        exact List.dropWhile_idempotent _ _
      have ha := head_false_of_dropWhile_self hself
      exact List.dropWhile_cons_of_neg (by simp [ha])
  rw [hd, List.rdropWhile_idempotent]

theorem jsTrim_decomp (s : JStr) : ∃ pre suf, pre ++ (jsTrim s ++ suf) = s := by
  rw [jsTrim_eq_rdrop]
  obtain ⟨suf, hsuf⟩ := List.rdropWhile_prefix jsIsSpace (s.dropWhile jsIsSpace)
  obtain ⟨pre, hpre⟩ := List.dropWhile_suffix (l := s) jsIsSpace
  exact ⟨pre, suf, by rw [hsuf, hpre]⟩

theorem collapsed_within {s u pre suf : JStr} (h : Collapsed s)
    (heq : pre ++ (u ++ suf) = s) : Collapsed u := by
  constructor
  · intro c hc hsp
    exact h.1 c (by rw [← heq]; simp [hc]) hsp
  · have h2 := h.2
    rw [← heq] at h2
    exact (List.Chain'.right_of_append h2).left_of_append

theorem normTitle_collapsed (t : JStr) : Collapsed (normalizeTitle t) := by
  unfold normalizeTitle
  obtain ⟨pre, suf, heq⟩ := jsTrim_decomp (collapseWS (editionTokenPasses (punctToSpace
    (removeMarks (andExpand ((replaceCurlyQuotes (replaceCurlyApos
      (jsNFKD (stripTrailingYearSuffix t)))).map jsToLower))))))
  exact collapsed_within (collapseWS_collapsed _) heq

theorem jsTrim_normTitle (t : JStr) : jsTrim (normalizeTitle t) = normalizeTitle t := by
  unfold normalizeTitle
  exact jsTrim_idem _

/-- C2 (amended): `normalizeTitle` is idempotent exactly on the titles whose
normalized form is a fixed point of the trailing-year stripper and of the
edition-token passes; in general `normalizeTitle (normalizeTitle t)` can
differ from `normalizeTitle t` (see the counterexample). -/
theorem C2_normalize_idem (t : JStr)
    (h1 : stripTrailingYearSuffix (normalizeTitle t) = normalizeTitle t)
    (h2 : editionTokenPasses (normalizeTitle t) = normalizeTitle t) :
    normalizeTitle (normalizeTitle t) = normalizeTitle t := by
  have hst : ∀ c ∈ normalizeTitle t, stableChar c = true := normTitle_stable
  have hcoll : Collapsed (normalizeTitle t) := normTitle_collapsed t
  conv_lhs => rw [normalizeTitle.eq_def]
  rw [h1, jsNFKD_fix hst, replaceCurlyApos_fix hst, replaceCurlyQuotes_fix hst,
    mapToLower_fix hst, andExpand_fix hst, removeMarks_fix hst, punctToSpace_fix hst,
    h2, collapsed_fix hcoll, jsTrim_normTitle]

/-- C2 counterexample: punctuation can re-expose a trailing year, so a second
normalization strips more. -/
theorem C2_counterexample :
    normalizeTitle ("Waiting 1998!".data) = "waiting 1998".data ∧
    normalizeTitle (normalizeTitle ("Waiting 1998!".data)) = "waiting".data := by
  constructor
  · decide
  · decide

theorem C2_witness :
    normalizeTitle (normalizeTitle ("Waiting (1998)".data)) =
      normalizeTitle ("Waiting (1998)".data) :=
  C2_normalize_idem ("Waiting (1998)".data) (by decide) (by decide)

end Crate
